import Mathlib

/-!
# Verification of the memory_agent repository

A shallow embedding, in Lean 4, of the parts of the `memory_agent` repository
(servers under `server/mcp-memory/src`) that the specification's claims are
about, together with theorems settling each claim.

Conventions of the embedding:
* Python strings are modelled as `List Char` (`PyStr`): Python's `len` counts
  code points, which matches `List.length` on the character list.
* Python floats are modelled as rationals (`ℚ`); the numeric literals that the
  code compares against (`0.2`, `1.5`, `3.0`, ...) are exact in this model.
* Python dicts keyed by strings are modelled as association lists in insertion
  order, matching CPython's ordered-dict semantics.
* `asyncio` code is modelled by an explicit state machine; an `await` that can
  suspend is modelled by a `blocked` outcome.
* Fallible code returns `Except PyErr`.
-/

set_option maxRecDepth 40000

namespace MemoryAgent

/-- Python strings as lists of unicode code points. -/
abbrev PyStr := List Char

/-- Coerce a Lean string literal into the `PyStr` model. -/
def pys (s : String) : PyStr := s.data

/-- `leadsWith kw s` is Python's `s.startswith(kw)`. -/
def leadsWith : PyStr → PyStr → Bool
  | [], _ => true
  | _ :: _, [] => false
  | a :: as, b :: bs => a == b && leadsWith as bs

/-- `occursIn kw s` is Python's `kw in s` (substring containment). -/
def occursIn (kw : PyStr) : PyStr → Bool
  | [] => leadsWith kw []
  | c :: cs => leadsWith kw (c :: cs) || occursIn kw cs

/-- Python's `str.lower()`.  The alphabet used by the repository is ASCII
letters plus Hangul; Hangul has no case, so `Char.toLower` agrees with
Python's case folding on every character the code manipulates. -/
def pyLower (s : PyStr) : PyStr := s.map Char.toLower

/-- The whitespace class that Python's argument-less `str.split()` and the
regex class `\s` use (ASCII part; the repository's data contains no exotic
unicode whitespace). -/
def isPySpace (c : Char) : Bool :=
  c == ' ' || c == '\t' || c == '\n' || c == '\r' || c == '\x0b' || c == '\x0c'

/-- Helper for `pySplit`: accumulates the current word (reversed). -/
def pySplitAux : PyStr → PyStr → List PyStr
  | acc, [] => if acc.isEmpty then [] else [acc.reverse]
  | acc, c :: cs =>
    if isPySpace c then
      if acc.isEmpty then pySplitAux [] cs else acc.reverse :: pySplitAux [] cs
    else pySplitAux (c :: acc) cs

/-- Python's argument-less `str.split()`: split on runs of whitespace,
discarding empty words. -/
def pySplit (s : PyStr) : List PyStr := pySplitAux [] s

/-- Split a path string on `'/'` (Python's `s.split('/')`). -/
def splitSlash (s : PyStr) : List PyStr :=
  s.splitOn '/'

/-!
Rational arithmetic of the embedding.  Core `Rat.add`/`Rat.mul`/`Rat.div` are
`@[irreducible]`, which blocks evaluation of concrete instances by `decide`;
the embedding therefore computes through `Rat.divInt` (which does reduce),
and bridge lemmas below identify these operations with Mathlib's. -/

/-- Addition on `ℚ` through `Rat.divInt` (equals `a + b`). -/
def qadd (a b : ℚ) : ℚ :=
  Rat.divInt (a.num * b.den + b.num * a.den) (a.den * b.den)

/-- Multiplication on `ℚ` through `Rat.divInt` (equals `a * b`). -/
def qmul (a b : ℚ) : ℚ := Rat.divInt (a.num * b.num) (a.den * b.den)

/-- Division on `ℚ` through `Rat.divInt` (equals `a / b`). -/
def qdiv (a b : ℚ) : ℚ := Rat.divInt (a.num * b.den) (b.num * a.den)

/-- Python's `min` on two floats (first argument on ties), via the executable
comparison `Rat.blt` (equals `min a b`). -/
def pyMin (a b : ℚ) : ℚ := if Rat.blt b a then b else a

/-! ## `memory_agent/hierarchical_memory_types.py` -/

/-- Result of hierarchical classification (`MemoryClassification`). -/
structure MemoryClassification where
  major : PyStr
  minor : PyStr
  detail : PyStr
  confidence : ℚ
  deriving DecidableEq

/-- `MemoryClassification.to_path`: `"major/minor/detail"`. -/
def MemoryClassification.to_path (c : MemoryClassification) : PyStr :=
  c.major ++ pys "/" ++ c.minor ++ pys "/" ++ c.detail

/-- The hierarchical type tree of `HierarchicalMemoryType.__init__`, verbatim:
major → minor → detail → trigger keywords. -/
def type_tree : List (PyStr × List (PyStr × List (PyStr × List PyStr))) :=
  [ (pys "personal",
      [ (pys "identity",
          [ (pys "name", [pys "이름", pys "성함", pys "호칭", pys "name", pys "called"]),
            (pys "age", [pys "나이", pys "살", pys "세", pys "출생", pys "age", pys "born"]),
            (pys "location", [pys "살고", pys "거주", pys "위치", pys "주소", pys "사는", pys "live", pys "location"]),
            (pys "gender", [pys "성별", pys "남자", pys "여자", pys "gender"]),
            (pys "family", [pys "가족", pys "부모", pys "형제", pys "자녀", pys "family"]) ]),
        (pys "preference",
          [ (pys "food", [pys "먹는", pys "음식", pys "좋아하는", pys "싫어하는", pys "food", pys "eat", pys "taste"]),
            (pys "music", [pys "음악", pys "노래", pys "듣는", pys "music", pys "song"]),
            (pys "activity", [pys "운동", pys "취미", pys "활동", pys "즐기는", pys "hobby", pys "activity"]),
            (pys "style", [pys "스타일", pys "패션", pys "옷", pys "style", pys "fashion"]),
            (pys "general", [pys "좋아", pys "싫어", pys "선호", pys "like", pys "dislike", pys "prefer"]) ]),
        (pys "profession",
          [ (pys "job", [pys "직업", pys "일", pys "업무", pys "job", pys "work", pys "occupation"]),
            (pys "company", [pys "회사", pys "직장", pys "근무", pys "company", pys "office"]),
            (pys "role", [pys "역할", pys "직책", pys "담당", pys "role", pys "position", pys "title"]),
            (pys "career", [pys "경력", pys "경험", pys "career", pys "experience"]),
            (pys "education", [pys "학교", pys "전공", pys "졸업", pys "education", pys "study"]) ]) ]),
    (pys "knowledge",
      [ (pys "fact",
          [ (pys "general", [pys "사실", pys "정보", pys "알고", pys "fact", pys "information"]),
            (pys "specific", [pys "구체적", pys "정확한", pys "specific", pys "exact"]),
            (pys "historical", [pys "과거", pys "역사", pys "예전", pys "history", pys "past"]),
            (pys "current", [pys "현재", pys "지금", pys "최근", pys "current", pys "now"]) ]),
        (pys "skill",
          [ (pys "technical", [pys "기술", pys "프로그래밍", pys "개발", pys "코딩", pys "tech", pys "programming"]),
            (pys "language", [pys "언어", pys "영어", pys "한국어", pys "language", pys "speak"]),
            (pys "soft", [pys "소통", pys "리더십", pys "협업", pys "communication", pys "leadership"]),
            (pys "tool", [pys "도구", pys "사용", pys "프로그램", pys "tool", pys "software"]) ]),
        (pys "experience",
          [ (pys "work", [pys "프로젝트", pys "업무", pys "일했", pys "project", pys "worked"]),
            (pys "personal", [pys "경험", pys "했던", pys "기억", pys "experience", pys "memory"]),
            (pys "achievement", [pys "성과", pys "달성", pys "이뤘", pys "achievement", pys "accomplished"]),
            (pys "learning", [pys "배운", pys "학습", pys "공부", pys "learned", pys "studied"]) ]) ]),
    (pys "temporal",
      [ (pys "conversation",
          [ (pys "question", [pys "?", pys "뭐", pys "어떻게", pys "왜", pys "언제", pys "what", pys "how", pys "why"]),
            (pys "statement", [pys "입니다", pys "해요", pys "했어요", pys "is", pys "are", pys "was"]),
            (pys "greeting", [pys "안녕", pys "반가", pys "hello", pys "hi"]),
            (pys "response", [pys "네", pys "아니", pys "응답", pys "yes", pys "no", pys "response"]) ]),
        (pys "context",
          [ (pys "current", [pys "지금", pys "오늘", pys "현재", pys "now", pys "today", pys "current"]),
            (pys "past", [pys "어제", pys "예전", pys "과거", pys "yesterday", pys "before", pys "past"]),
            (pys "future", [pys "내일", pys "나중", pys "계획", pys "tomorrow", pys "later", pys "plan"]),
            (pys "session", [pys "방금", pys "아까", pys "just", pys "recently"]) ]) ]) ]

/-- Build the path string `f"{major}/{minor}/{detail}"`. -/
def mkPath (major minor detail : PyStr) : PyStr :=
  major ++ pys "/" ++ minor ++ pys "/" ++ detail

/-- Append `v` to dict entry `k` of an insertion-ordered multimap, creating the
entry at the end if absent (Python dict-of-lists update). -/
def dictPush (m : List (PyStr × List PyStr)) (k : PyStr) (v : PyStr) :
    List (PyStr × List PyStr) :=
  match m with
  | [] => [(k, [v])]
  | (k', vs) :: rest =>
    if k' = k then (k', vs ++ [v]) :: rest else (k', vs) :: dictPush rest k v

/-- `HierarchicalMemoryType._build_keyword_map`: reverse map, keyword →
list of paths owning that keyword, in the tree's iteration order. -/
def keyword_map : List (PyStr × List PyStr) :=
  type_tree.foldl
    (fun m major =>
      major.2.foldl
        (fun m minor =>
          minor.2.foldl
            (fun m detail =>
              detail.2.foldl
                (fun m kw => dictPush m kw (mkPath major.1 minor.1 detail.1))
                m)
            m)
        m)
    []

/-- Per-keyword weight of `classify`: `len(keyword)/10`, doubled when the
lower-cased content starts with the keyword. -/
def kwWeight (content_lower kw : PyStr) : ℚ :=
  let weight : ℚ := qdiv (kw.length : ℚ) 10
  if leadsWith kw content_lower then qmul weight 2 else weight

/-- `path_scores[path] += w` with Python dict semantics: update in place if
the key exists, otherwise append the new entry. -/
def addScore (scores : List (PyStr × ℚ)) (path : PyStr) (w : ℚ) :
    List (PyStr × ℚ) :=
  match scores with
  | [] => [(path, w)]
  | (p, v) :: rest =>
    if p = path then (p, qadd v w) :: rest else (p, v) :: addScore rest path w

/-- The optional `context` argument of `classify` (`previous_type` and
`session_types` keys of the context dict). -/
structure ClassifyContext where
  previous_type : Option PyStr
  session_types : Option (List PyStr)

/-- Multiply the score of key `k` by `c` when present (no-op when absent),
mirroring the guarded in-place `path_scores[p] *= c` updates. -/
def scaleKey (m : List (PyStr × ℚ)) (k : PyStr) (c : ℚ) : List (PyStr × ℚ) :=
  m.map (fun kv => if kv.1 = k then (kv.1, qmul kv.2 c) else kv)

/-- `HierarchicalMemoryType._apply_context_boosts`: ×1.5 for the previous
classification's path, ×1.2 for each session active-type path. -/
def _apply_context_boosts (scores : List (PyStr × ℚ)) (context : ClassifyContext) :
    List (PyStr × ℚ) :=
  let scores :=
    match context.previous_type with
    | some prev => scaleKey scores prev (Rat.divInt 3 2)
    | none => scores
  match context.session_types with
  | some ts => ts.foldl (fun s t => scaleKey s t (Rat.divInt 6 5)) scores
  | none => scores

/-- Python's `max(items, key=λx. x[1])`: first entry with the maximal value
(ties keep the earlier entry). -/
def maxEntry (h : PyStr × ℚ) : List (PyStr × ℚ) → PyStr × ℚ
  | [] => h
  | e :: es => if h.2 < e.2 then maxEntry e es else maxEntry h es

/-- The keyword-scoring pass of `classify`: for each keyword occurring in the
lower-cased content, add its weight to every path owning it. -/
def path_scores (content_lower : PyStr) : List (PyStr × ℚ) :=
  keyword_map.foldl
    (fun scores kp =>
      if occursIn kp.1 content_lower then
        kp.2.foldl (fun s p => addScore s p (kwWeight content_lower kp.1)) scores
      else scores)
    []

/-- The scores `classify` ranks: the keyword scores after the optional
context boosts. -/
def final_scores (content : PyStr) (context : Option ClassifyContext) :
    List (PyStr × ℚ) :=
  let scores := path_scores (pyLower content)
  match context with
  | some ctx => _apply_context_boosts scores ctx
  | none => scores

/-- `HierarchicalMemoryType.classify` (continued): argmax over the boosted
scores, fallbacks when no keyword matched. -/
def classify (content : PyStr) (context : Option ClassifyContext) :
    MemoryClassification :=
  match final_scores content context with
  | best0 :: rest =>
    let best := maxEntry best0 rest
    match splitSlash best.1 with
    | [major, minor, detail] =>
      ⟨major, minor, detail, pyMin (qdiv best.2 3) 1⟩
    | _ =>
      -- unreachable: every scored key is a well-formed three-part path
      ⟨[], [], [], 0⟩
  | [] =>
    if occursIn (pys "?") content then
      ⟨pys "temporal", pys "conversation", pys "question", Rat.divInt 4 5⟩
    else if (pySplit content).length < 10 then
      ⟨pys "temporal", pys "conversation", pys "statement", Rat.divInt 1 2⟩
    else
      ⟨pys "knowledge", pys "fact", pys "general", Rat.divInt 3 10⟩

/-- The `importance_map` of `get_importance` (major/minor prefix → base). -/
def importance_map : List (PyStr × ℚ) :=
  [ (pys "personal/identity", 9),
    (pys "personal/profession", Rat.divInt 85 10),
    (pys "knowledge/skill/technical", 8),
    (pys "personal/preference", 7),
    (pys "knowledge/experience", 7),
    (pys "knowledge/fact", 6),
    (pys "temporal/context", 4),
    (pys "temporal/conversation", 3) ]

/-- The `major_importance` fallback table of `get_importance`. -/
def major_importance (major : PyStr) : ℚ :=
  if major = pys "personal" then 7
  else if major = pys "knowledge" then 6
  else if major = pys "temporal" then 4
  else 5

/-- Association-list lookup (Python `dict.get`, `in` test via `Option`). -/
def lookupQ (m : List (PyStr × ℚ)) (k : PyStr) : Option ℚ :=
  (m.find? (fun kv => kv.1 = k)).map (·.2)

/-- `HierarchicalMemoryType.get_importance`: the mapped value when the
`major/minor` prefix is a key of `importance_map`, otherwise the major-level
base plus twice the confidence. -/
def get_importance (c : MemoryClassification) : ℚ :=
  let path := c.major ++ pys "/" ++ c.minor
  match lookupQ importance_map path with
  | some v => v
  | none => qadd (major_importance c.major) (qmul c.confidence 2)

/-! ## `storage_strategy.py` -/

/-- `StorageLocation` enum. -/
inductive StorageLocation
  | DB
  | RAG
  | CACHE
  | ARCHIVE
  deriving DecidableEq, BEq

/-- `StorageStrategy` dataclass. -/
structure StorageStrategy where
  primary_location : StorageLocation
  secondary_locations : List StorageLocation
  includes_rag : Bool
  includes_embedding : Bool
  ttl_seconds : Option ℕ
  compression_enabled : Bool
  index_for_search : Bool
  deriving DecidableEq

/-- The `strategies` table of `StorageStrategyDeterminer.__init__`. -/
def strategies_high_value_frequent : StorageStrategy :=
  ⟨.DB, [.RAG, .CACHE], true, true, none, false, true⟩

/-- `strategies["high_value_infrequent"]`. -/
def strategies_high_value_infrequent : StorageStrategy :=
  ⟨.DB, [.ARCHIVE], false, true, none, true, true⟩

/-- `strategies["conversational"]`. -/
def strategies_conversational : StorageStrategy :=
  ⟨.DB, [], false, true, none, false, true⟩

/-- `strategies["temporary"]`. -/
def strategies_temporary : StorageStrategy :=
  ⟨.CACHE, [], false, false, some 86400, false, false⟩

/-- `strategies["large_content"]`. -/
def strategies_large_content : StorageStrategy :=
  ⟨.DB, [.ARCHIVE], false, true, none, true, true⟩

/-- `StorageStrategyDeterminer._get_default_strategy`. -/
def _get_default_strategy (importance : ℚ) (content_size : ℕ) : StorageStrategy :=
  if importance ≥ 8 then strategies_high_value_frequent
  else if importance ≥ 6 then
    if content_size > 1000 then strategies_large_content
    else strategies_high_value_infrequent
  else if importance ≥ 4 then strategies_conversational
  else strategies_temporary

/-- `StorageStrategyDeterminer._determine_hierarchical_strategy`. -/
def _determine_hierarchical_strategy (major minor _detail : PyStr)
    (importance : ℚ) (content_size : ℕ) : StorageStrategy :=
  if major = pys "personal" then
    if minor = pys "identity" then strategies_high_value_frequent
    else if minor = pys "preference" then
      if importance ≥ 7 then strategies_high_value_frequent
      else strategies_high_value_infrequent
    else if minor = pys "profession" then strategies_high_value_frequent
    else _get_default_strategy importance content_size
  else if major = pys "knowledge" then
    if minor = pys "skill" then strategies_high_value_frequent
    else if minor = pys "experience" then
      if content_size > 1000 then strategies_large_content
      else strategies_conversational
    else if minor = pys "fact" then
      if importance ≥ 8 then strategies_high_value_infrequent
      else ⟨.DB, [], false, true, none, false, true⟩
    else _get_default_strategy importance content_size
  else if major = pys "temporal" then
    if minor = pys "conversation" then strategies_conversational
    else if minor = pys "context" then strategies_temporary
    else _get_default_strategy importance content_size
  else _get_default_strategy importance content_size

/-- `StorageStrategyDeterminer._determine_flat_strategy`. -/
def _determine_flat_strategy (memory_type : PyStr) (importance : ℚ)
    (content_size : ℕ) : StorageStrategy :=
  if memory_type = pys "conversation" then strategies_conversational
  else if memory_type = pys "identity" then strategies_high_value_frequent
  else if memory_type = pys "preference" then strategies_high_value_frequent
  else if memory_type = pys "experience" then
    if content_size > 1000 then strategies_large_content
    else strategies_conversational
  else if memory_type = pys "context" then strategies_temporary
  else _get_default_strategy importance content_size

/-- Python exceptions surfaced by the embedding. -/
inductive PyErr
  | valueError
  | typeError
  deriving DecidableEq

/-- `StorageStrategyDeterminer.determine_strategy`: hierarchical dispatch when
the type contains `'/'` (the three-way unpacking raises `ValueError` unless the
path has exactly three segments), flat dispatch otherwise. -/
def determine_strategy (memory_type : PyStr) (importance : ℚ)
    (content_size : ℕ) : Except PyErr StorageStrategy :=
  if occursIn (pys "/") memory_type then
    match splitSlash memory_type with
    | [major, minor, detail] =>
      .ok (_determine_hierarchical_strategy major minor detail importance content_size)
    | _ => .error .valueError
  else
    .ok (_determine_flat_strategy memory_type importance content_size)

/-! ### `optimize_strategy`, with an explicit heap for the aliasing claim

`optimize_strategy` clones the input strategy (`secondary_locations.copy()`)
and mutates only the clone.  To state that the *input* object is left
unmodified, the mutable `secondary_locations` list is held in an explicit
heap of list cells addressed by `ℕ`; the strategy object stores the address. -/

/-- Heap of mutable `List StorageLocation` cells; `next` is the next fresh
address (every allocated address is `< next`). -/
structure ListHeap where
  cells : ℕ → List StorageLocation
  next : ℕ

/-- Write cell `i` of the heap. -/
def ListHeap.write (h : ListHeap) (i : ℕ) (v : List StorageLocation) : ListHeap :=
  ⟨fun j => if j = i then v else h.cells j, h.next⟩

/-- A `StorageStrategy` whose mutable `secondary_locations` list lives in the
heap at `secondary_ref`. -/
structure StorageStrategyRef where
  primary_location : StorageLocation
  secondary_ref : ℕ
  includes_rag : Bool
  includes_embedding : Bool
  ttl_seconds : Option ℕ
  compression_enabled : Bool
  index_for_search : Bool

/-- The `access_stats` dict of `optimize_strategy`; `.get(key, 0)` defaults
are reflected by total fields. -/
structure AccessStats where
  daily_access_count : ℤ
  days_since_last_access : ℤ
  search_hit_rate : ℚ

/-- The `access_frequency > 10` / `last_accessed_days > 30` block of
`optimize_strategy`, acting on the clone's list cell `fresh`. -/
def optimize_access_step (st : ListHeap × StorageStrategyRef)
    (access_stats : AccessStats) (fresh : ℕ) : ListHeap × StorageStrategyRef :=
  if access_stats.daily_access_count > 10 then
    -- add to cache if not already there
    if (st.1.cells fresh).contains StorageLocation.CACHE then st
    else (st.1.write fresh (st.1.cells fresh ++ [.CACHE]), st.2)
  else if access_stats.days_since_last_access > 30 then
    -- move to archive, drop cache, enable compression
    let h1 : ListHeap :=
      if (st.1.cells fresh).contains StorageLocation.ARCHIVE then st.1
      else st.1.write fresh (st.1.cells fresh ++ [.ARCHIVE])
    let h2 : ListHeap :=
      if (h1.cells fresh).contains StorageLocation.CACHE then
        h1.write fresh ((h1.cells fresh).erase .CACHE)
      else h1
    (h2, { st.2 with compression_enabled := true })
  else st

/-- The `search_hit_rate < 0.1 and includes_rag` block of `optimize_strategy`. -/
def optimize_rag_step (st : ListHeap × StorageStrategyRef)
    (access_stats : AccessStats) (fresh : ℕ) : ListHeap × StorageStrategyRef :=
  if access_stats.search_hit_rate < Rat.divInt 1 10 then
    if st.2.includes_rag then
      let h1 : ListHeap :=
        if (st.1.cells fresh).contains StorageLocation.RAG then
          st.1.write fresh ((st.1.cells fresh).erase .RAG)
        else st.1
      (h1, { st.2 with includes_rag := false })
    else st
  else st

/-- `StorageStrategyDeterminer.optimize_strategy`: clone the current strategy
(`secondary_locations.copy()` into a fresh cell), then promote/demote storage
locations on the clone only. -/
def optimize_strategy (h : ListHeap) (current : StorageStrategyRef)
    (access_stats : AccessStats) : ListHeap × StorageStrategyRef :=
  let fresh := h.next
  let h1 : ListHeap :=
    ⟨(h.write fresh (h.cells current.secondary_ref)).cells, h.next + 1⟩
  let optimized : StorageStrategyRef := { current with secondary_ref := fresh }
  optimize_rag_step (optimize_access_step (h1, optimized) access_stats fresh)
    access_stats fresh

/-! ## `vector_index_optimizer.py` -/

/-- The strategy dict returned by
`MemoryVectorIndexOptimizer._determine_index_strategy`. -/
inductive IndexStrategy
  | noIndex
  | ivfflatBasic (lists probes : ℕ)
  | ivfflatOptimized (lists probes : ℕ) (user_optimized : Bool)
  | partitionedIvfflat (lists_per_partition probes : ℕ)
  | hnsw (m ef_construction ef_search : ℕ)
  deriving DecidableEq

/-- `dict.get k 0` on a `ℕ`-valued association list. -/
def getCount (m : List (PyStr × ℕ)) (k : PyStr) : ℕ :=
  ((m.find? (fun kv => kv.1 = k)).map (·.2)).getD 0

/-- The power-user ratio computed by `_determine_index_strategy`: note the
numerator counts the `power` *and* `heavy` buckets. -/
def power_user_ratio (unique_users : ℕ) (user_dist : List (PyStr × ℕ)) : ℚ :=
  let power_users := getCount user_dist (pys "power") + getCount user_dist (pys "heavy")
  let total_users := if user_dist.isEmpty then unique_users else (user_dist.map (·.2)).sum
  if total_users > 0 then qdiv (power_users : ℚ) (total_users : ℚ) else 0

/-- `MemoryVectorIndexOptimizer._determine_index_strategy`.  Integer division
models Python's `int(row_count / k)`, which truncates (the quotients involved
are exact enough in double precision that truncation equals floor). -/
def _determine_index_strategy (row_count unique_users : ℕ)
    (user_dist : List (PyStr × ℕ)) : IndexStrategy :=
  if row_count < 1000 then .noIndex
  else if row_count < 10000 then
    .ivfflatBasic (max (row_count / 100) 10) 5
  else if row_count < 100000 then
    if power_user_ratio unique_users user_dist > Rat.divInt 2 10 then
      .ivfflatOptimized (max (row_count / 500) 50) 20 true
    else
      .ivfflatOptimized (max (row_count / 1000) 30) 10 false
  else
    if unique_users < 1000 then
      .partitionedIvfflat 100 15
    else
      .hnsw (if row_count < 500000 then 16 else 32)
        (if row_count < 500000 then 200 else 400) 100

/-- The `lists` parameter that `_apply_index_strategy` passes to
`CREATE INDEX ... USING ivfflat` (for the partitioned strategy the query uses
`lists_per_partition * 10`); `none` for strategies that create no IVFFlat
vector index with a `lists` parameter. -/
def appliedLists : IndexStrategy → Option ℕ
  | .noIndex => none
  | .ivfflatBasic lists _ => some lists
  | .ivfflatOptimized lists _ _ => some lists
  | .partitionedIvfflat lists_per_partition _ => some (lists_per_partition * 10)
  | .hnsw _ _ _ => none

/-! ## `memory_event_stream.py` -/

/-- `MemoryEvent` (payload fields other than the routing keys are irrelevant
to the claims and are carried opaquely by `event_type`). -/
structure MemoryEvent where
  event_type : PyStr
  user_id : PyStr
  session_id : Option PyStr
  deriving DecidableEq

/-- An `asyncio.Queue(maxsize=n)`: `maxsize = 0` means unbounded. -/
structure PyQueue where
  maxsize : ℕ
  items : List MemoryEvent
  deriving DecidableEq

/-- An `asyncio.Queue` is full when bounded and at capacity. -/
def PyQueue.isFull (q : PyQueue) : Bool :=
  0 < q.maxsize && q.maxsize ≤ q.items.length

/-- Outcome of `await queue.put(item)`: asyncio's `put` *waits* for a free
slot when the queue is full — it never raises `QueueFull` (only the
non-awaiting `put_nowait` does).  A full queue therefore suspends the caller,
modelled by `blocked`. -/
inductive PutOutcome
  | ok (q : PyQueue)
  | blocked
  deriving DecidableEq

/-- `await queue.put(event)` under asyncio semantics. -/
def queue_put (q : PyQueue) (e : MemoryEvent) : PutOutcome :=
  if q.isFull then .blocked else .ok ⟨q.maxsize, q.items ++ [e]⟩

/-- Put the event into each queue of the list in order; `none` when some
queue is full and the producer is suspended. -/
def putAll (qs : List PyQueue) (e : MemoryEvent) : Option (List PyQueue) :=
  match qs with
  | [] => some []
  | q :: rest =>
    match queue_put q e with
    | .ok q' => (putAll rest e).map (q' :: ·)
    | .blocked => none

/-- `MemoryEventStream` state: user, session and global subscriptions. -/
structure EventStreamState where
  _subscriptions : List (PyStr × List PyQueue)
  _session_subscriptions : List (PyStr × List PyQueue)
  _global_subscriptions : List PyQueue

/-- Result of running `emit_event` to completion or to a suspension point. -/
inductive EmitResult
  | completed (s : EventStreamState)
  | blocked
  deriving Inhabited

/-- Deliver to the queue set registered under `key`, if any. -/
def putGroup (subs : List (PyStr × List PyQueue)) (key : PyStr)
    (e : MemoryEvent) : Option (List (PyStr × List PyQueue)) :=
  match subs with
  | [] => some []
  | (k, qs) :: rest =>
    if k = key then
      (putAll qs e).map (fun qs' => (k, qs') :: rest)
    else
      (putGroup rest key e).map ((k, qs) :: ·)

/-- `MemoryEventStream.emit_event`: deliver to user, then session, then global
subscribers; each delivery is `await queue.put(event)`, so the first full
queue suspends the producer (the `except asyncio.QueueFull` handlers in the
source are unreachable because `put` waits instead of raising). -/
def emit_event (st : EventStreamState) (e : MemoryEvent) : EmitResult :=
  match putGroup st._subscriptions e.user_id e with
  | none => .blocked
  | some subs =>
    let afterSession : Option (List (PyStr × List PyQueue)) :=
      match e.session_id with
      | some sid => putGroup st._session_subscriptions sid e
      | none => some st._session_subscriptions
    match afterSession with
    | none => .blocked
    | some sess =>
      match putAll st._global_subscriptions e with
      | none => .blocked
      | some glob => .completed ⟨subs, sess, glob⟩

/-! ## `memory_agent/enhanced_intelligence.py`

The regex patterns of `EnhancedMemoryIntelligence` are embedded as bespoke
total matchers over `PyStr`.  Each matcher reproduces the leftmost,
non-overlapping `re.findall` discipline, including the backtracking of greedy
quantifiers against required suffixes (descending-length search). -/

/-- `MemoryType` enum of `memory_agent/memory_types.py`. -/
inductive MemoryType
  | FACT
  | PREFERENCE
  | IDENTITY
  | PROFESSION
  | SKILL
  | GOAL
  | HOBBY
  | EXPERIENCE
  | CONTEXT
  | CONVERSATION
  deriving DecidableEq

/-- An extracted entity dict of `_extract_entities`. -/
structure Entity where
  type : PyStr
  value : PyStr
  confidence : ℚ
  deriving DecidableEq

/-- Hangul syllables `[가-힣]` (U+AC00 – U+D7A3). -/
def isHangul (c : Char) : Bool :=
  0xAC00 ≤ c.toNat && c.toNat ≤ 0xD7A3

/-- ASCII letters `[A-Za-z]`. -/
def isAsciiLetter (c : Char) : Bool :=
  ('A' ≤ c && c ≤ 'Z') || ('a' ≤ c && c ≤ 'z')

/-- ASCII digits `\d` (the repository's inputs contain no exotic unicode
digits). -/
def isDigitCh (c : Char) : Bool := '0' ≤ c && c ≤ '9'

/-- Python's `\w` word-character class on the alphabet the code manipulates:
ASCII alphanumerics, underscore, Hangul. -/
def isWordCh (c : Char) : Bool :=
  isAsciiLetter c || isDigitCh c || c == '_' || isHangul c

/-- Python's `str.strip()`. -/
def stripPy (s : PyStr) : PyStr :=
  ((s.dropWhile isPySpace).reverse.dropWhile isPySpace).reverse

/-- Helper for `re.sub(r'\s+', ' ', ·)`: the flag records whether the previous
character belonged to a whitespace run already emitted as one space. -/
def collapseWsAux : Bool → PyStr → PyStr
  | _, [] => []
  | inRun, c :: cs =>
    if isPySpace c then
      if inRun then collapseWsAux true cs else ' ' :: collapseWsAux true cs
    else c :: collapseWsAux false cs

/-- `re.sub(r'\s+', ' ', s)`. -/
def collapseWs (s : PyStr) : PyStr := collapseWsAux false s

/-- Helper for `str.replace`: fuel-bounded leftmost non-overlapping
replacement (fuel = initial length; each step consumes ≥ 1 character). -/
def pyReplaceAux (pat rep : PyStr) : ℕ → PyStr → PyStr
  | 0, s => s
  | _ + 1, [] => []
  | fuel + 1, c :: cs =>
    if leadsWith pat (c :: cs) && !pat.isEmpty then
      rep ++ pyReplaceAux pat rep fuel ((c :: cs).drop pat.length)
    else c :: pyReplaceAux pat rep fuel cs

/-- Python's `s.replace(pat, rep)` (all occurrences, left to right). -/
def pyReplace (s pat rep : PyStr) : PyStr := pyReplaceAux pat rep s.length s

/-- `EnhancedMemoryIntelligence._normalize_content`: collapse whitespace on
the stripped content, then fix the three common typos. -/
def _normalize_content (content : PyStr) : PyStr :=
  let c := collapseWs (stripPy content)
  let c := pyReplace c (pys "되요") (pys "돼요")
  let c := pyReplace c (pys "됬") (pys "됐")
  pyReplace c (pys "왠만") (pys "웬만")

/-- The particle characters of the keyword cleaner `[은는이가을를에서]$`. -/
def particleChars : List Char := ['은', '는', '이', '가', '을', '를', '에', '서']

/-- `re.sub(r'[은는이가을를에서]$', '', word)`: drop one trailing particle. -/
def cleanWord (w : PyStr) : PyStr :=
  match w.reverse with
  | [] => []
  | c :: rest => if particleChars.contains c then rest.reverse else w

/-- The Korean stop-word set of `_extract_keywords`. -/
def stop_words : List PyStr :=
  [pys "는", pys "은", pys "이", pys "가", pys "을", pys "를", pys "에",
   pys "에서", pys "으로", pys "와", pys "과", pys "의", pys "하다",
   pys "있다", pys "되다", pys "수", pys "그", pys "저", pys "이것", pys "그것"]

/-- `[가-힣]{2,}` found anywhere: two consecutive Hangul characters. -/
def hasHangulRun2 : PyStr → Bool
  | a :: b :: rest => (isHangul a && isHangul b) || hasHangulRun2 (b :: rest)
  | _ => false

/-- `[A-Za-z]{3,}` found anywhere: three consecutive ASCII letters. -/
def hasLatinRun3 : PyStr → Bool
  | a :: b :: c :: rest =>
    (isAsciiLetter a && isAsciiLetter b && isAsciiLetter c) || hasLatinRun3 (b :: c :: rest)
  | _ => false

/-- `re.search(r'[가-힣]{2,}|[A-Za-z]{3,}', w)` succeeds. -/
def isMeaningfulWord (w : PyStr) : Bool := hasHangulRun2 w || hasLatinRun3 w

/-- Order-preserving de-duplication (`seen` set + `unique_keywords` list). -/
def dedupKeep (seen : List PyStr) : List PyStr → List PyStr
  | [] => []
  | w :: ws =>
    if seen.contains w then dedupKeep seen ws
    else w :: dedupKeep (w :: seen) ws

/-- `EnhancedMemoryIntelligence._extract_keywords`. -/
def _extract_keywords (content : PyStr) : List PyStr :=
  let kws := (pySplit content).filterMap (fun w =>
    let clean_word := cleanWord w
    if clean_word.length < 2 || stop_words.contains clean_word then none
    else if isMeaningfulWord clean_word then some clean_word
    else none)
  (dedupKeep [] kws).take 10

/-- `[n, n-1, ..., 0]`: descending search order for a backtracking greedy
quantifier. -/
def descRange (n : ℕ) : List ℕ := (List.range (n + 1)).reverse

/-- `[n, n-1, ..., 1]`: descending search order for a `+`-quantifier. -/
def descRangePos (n : ℕ) : List ℕ := (List.range n).map (fun i => n - i)

/-- The statement suffix alternation `(?:입니다|예요|이에요)`: number of
characters it consumes at the head of `s`, trying the alternatives in the
pattern's order. -/
def suffixAfter (s : PyStr) : Option ℕ :=
  if leadsWith (pys "입니다") s then some 3
  else if leadsWith (pys "예요") s then some 2
  else if leadsWith (pys "이에요") s then some 3
  else none

/-- Leftmost, non-overlapping `re.findall` loop: try the matcher at each
position; on a match of `k ≥ 1` characters continue after it (fuel = input
length, consumed ≥ 1 per step). -/
def scanAllSimple (m : PyStr → Option (PyStr × ℕ)) : ℕ → PyStr → List PyStr
  | 0, _ => []
  | _, [] => []
  | fuel + 1, c :: cs =>
    match m (c :: cs) with
    | some (a, k) => a :: scanAllSimple m fuel ((c :: cs).drop (max k 1))
    | none => scanAllSimple m fuel cs

/-- `re.findall` over the whole input. -/
def findallS (m : PyStr → Option (PyStr × ℕ)) (s : PyStr) : List PyStr :=
  scanAllSimple m s.length s

/-- `re.findall` variant that threads the previous character (needed for the
`\b` word boundary of the number pattern). -/
def scanAllBound (m : Option Char → PyStr → Option (PyStr × ℕ)) :
    Option Char → ℕ → PyStr → List PyStr
  | _, 0, _ => []
  | _, _, [] => []
  | prev, fuel + 1, c :: cs =>
    match m prev (c :: cs) with
    | some (a, k) =>
      let k := max k 1
      a :: scanAllBound m ((c :: cs).take k).getLast? fuel ((c :: cs).drop k)
    | none => scanAllBound m (some c) fuel cs

/-- `re.findall` with word-boundary context. -/
def findallB (m : Option Char → PyStr → Option (PyStr × ℕ)) (s : PyStr) :
    List PyStr :=
  scanAllBound m none s.length s

/-- The `name` pattern
`(?:제 이름은|저는|나는)\s*([가-힣]{2,5})(?:입니다|예요|이에요)`:
greedy two-to-five-Hangul group backtracked against the required suffix. -/
def matchName (s : PyStr) : Option (PyStr × ℕ) :=
  [pys "제 이름은", pys "저는", pys "나는"].findSome? (fun pfx =>
    if leadsWith pfx s then
      let s1 := s.drop pfx.length
      let w := (s1.takeWhile isPySpace).length
      let s2 := s1.drop w
      let run := (s2.takeWhile isHangul).length
      ([5, 4, 3, 2].filter (· ≤ run)).findSome? (fun k =>
        match suffixAfter (s2.drop k) with
        | some m => some (s2.take k, pfx.length + w + k + m)
        | none => none)
    else none)

/-- The `age` pattern `(\d{1,3})(?:살|세)(?:입니다|예요|이에요)?`. -/
def matchAge (s : PyStr) : Option (PyStr × ℕ) :=
  let run := (s.takeWhile isDigitCh).length
  ([3, 2, 1].filter (· ≤ run)).findSome? (fun k =>
    match (s.drop k).head? with
    | some c =>
      if c == '살' || c == '세' then
        let m := (suffixAfter (s.drop (k + 1))).getD 0
        some (s.take k, k + 1 + m)
      else none
    | none => none)

/-- The city alternation of the `location` pattern. -/
def cityNames : List PyStr :=
  [pys "서울", pys "부산", pys "대구", pys "인천", pys "광주", pys "대전",
   pys "울산", pys "경기", pys "강원", pys "충북", pys "충남", pys "전북",
   pys "전남", pys "경북", pys "경남", pys "제주"]

/-- The `location` pattern
`(?:서울|…|제주)(?:에서?|에\s*살|에\s*거주)` (no capture group, so `findall`
returns the full match).  The first alternative `에서?` succeeds whenever `에`
follows the city, so the full match is city + `에` + optional `서`. -/
def matchLocation (s : PyStr) : Option (PyStr × ℕ) :=
  cityNames.findSome? (fun city =>
    if leadsWith city s then
      let s1 := s.drop city.length
      match s1.head? with
      | some c =>
        if c == '에' then
          let extra := if (s1.drop 1).head? == some '서' then 1 else 0
          let total := city.length + 1 + extra
          some (s.take total, total)
        else none
      | none => none
    else none)

/-- Greedy class-run group with a *required* statement suffix, after a
backtrackable `\s*` (used by the `company` pattern): search space-count `j`
then group length `k`, both descending — Python's backtracking order. -/
def matchRunWithSuffix (pfxlen : ℕ) (cls : Char → Bool) (s1 : PyStr) :
    Option (PyStr × ℕ) :=
  let wmax := (s1.takeWhile isPySpace).length
  (descRange wmax).findSome? (fun j =>
    let s2 := s1.drop j
    let run := (s2.takeWhile cls).length
    (descRangePos run).findSome? (fun k =>
      match suffixAfter (s2.drop k) with
      | some m => some (s2.take k, pfxlen + j + k + m)
      | none => none))

/-- The class `[가-힣A-Za-z\s]`. -/
def isHanLatSpace (c : Char) : Bool :=
  isHangul c || isAsciiLetter c || isPySpace c

/-- The class `[가-힣A-Za-z\s,]`. -/
def isHanLatSpaceComma (c : Char) : Bool := isHanLatSpace c || c == ','

/-- The `company` pattern
`(?:회사는|직장은|근무하는 곳은)\s*([가-힣A-Za-z\s]+)(?:입니다|예요|이에요)`. -/
def matchCompany (s : PyStr) : Option (PyStr × ℕ) :=
  [pys "회사는", pys "직장은", pys "근무하는 곳은"].findSome? (fun pfx =>
    if leadsWith pfx s then matchRunWithSuffix pfx.length isHanLatSpace (s.drop pfx.length)
    else none)

/-- Greedy class-run group whose trailing suffix is *optional* (never fires
after a maximal run, because the suffix letters belong to the class), after a
backtrackable `\s*`, an optional particle, and another backtrackable `\s*`
(used by the `skill` and `preference` patterns). -/
def matchRunOptSuffix (pfxlen : ℕ) (particles : List PyStr)
    (cls : Char → Bool) (s1 : PyStr) : Option (PyStr × ℕ) :=
  let w1 := (s1.takeWhile isPySpace).length
  (descRange w1).findSome? (fun j1 =>
    let s2 := s1.drop j1
    let particleLens :=
      (particles.filterMap (fun p => if leadsWith p s2 then some p.length else none)) ++ [0]
    particleLens.findSome? (fun pl =>
      let s3 := s2.drop pl
      let w2 := (s3.takeWhile isPySpace).length
      (descRange w2).findSome? (fun j2 =>
        let s4 := s3.drop j2
        let run := s4.takeWhile cls
        if run.isEmpty then none
        else some (run, pfxlen + j1 + pl + j2 + run.length))))

/-- The `skill` pattern
`(?:할 수 있|사용할 수 있|잘하는|전문)\s*(?:는|은)?\s*([가-힣A-Za-z\s,]+)(?:입니다|예요|이에요)?`. -/
def matchSkill (s : PyStr) : Option (PyStr × ℕ) :=
  [pys "할 수 있", pys "사용할 수 있", pys "잘하는", pys "전문"].findSome? (fun pfx =>
    if leadsWith pfx s then
      matchRunOptSuffix pfx.length [pys "는", pys "은"] isHanLatSpaceComma (s.drop pfx.length)
    else none)

/-- The `preference` pattern
`(?:좋아하는|선호하는|즐기는)\s*(?:것은|건)?\s*([가-힣A-Za-z\s]+)(?:입니다|예요|이에요)?`. -/
def matchPreference (s : PyStr) : Option (PyStr × ℕ) :=
  [pys "좋아하는", pys "선호하는", pys "즐기는"].findSome? (fun pfx =>
    if leadsWith pfx s then
      matchRunOptSuffix pfx.length [pys "것은", pys "건"] isHanLatSpace (s.drop pfx.length)
    else none)

/-- The number pattern `\b\d+(?:\.\d+)?\b`, with the word-boundary checks and
the fallback to the integer part when the fraction is not followed by a
boundary. -/
def matchNumber (prev : Option Char) (s : PyStr) : Option (PyStr × ℕ) :=
  if (prev.map isWordCh).getD false then none
  else
    let d1 := s.takeWhile isDigitCh
    if d1.isEmpty then none
    else
      match s.drop d1.length with
      | '.' :: r2 =>
        let d2 := r2.takeWhile isDigitCh
        if d2.isEmpty then some (d1, d1.length)
        else if ((r2.drop d2.length).head?.map isWordCh).getD false then
          some (d1, d1.length)
        else some (d1 ++ '.' :: d2, d1.length + 1 + d2.length)
      | c :: _ => if isWordCh c then none else some (d1, d1.length)
      | [] => some (d1, d1.length)

/-- `\d{1,2}` immediately followed by the literal `lit` (greedy: two digits
preferred). Returns the digit count. -/
def take2or1Digits (lit : Char) (s : PyStr) : Option ℕ :=
  match s with
  | a :: b :: c :: _ =>
    if isDigitCh a && isDigitCh b && c == lit then some 2
    else if isDigitCh a && b == lit then some 1
    else none
  | [a, b] => if isDigitCh a && b == lit then some 1 else none
  | _ => none

/-- The date pattern `(\d{4}년\s*\d{1,2}월\s*\d{1,2}일)`. -/
def matchDate (s : PyStr) : Option (PyStr × ℕ) :=
  let y := s.take 4
  if y.length == 4 && y.all isDigitCh && ((s.drop 4).head? == some '년') then
    let s2 := s.drop 5
    let w1 := (s2.takeWhile isPySpace).length
    let s3 := s2.drop w1
    match take2or1Digits '월' s3 with
    | some k2 =>
      let s4 := s3.drop (k2 + 1)
      let w2 := (s4.takeWhile isPySpace).length
      let s5 := s4.drop w2
      match take2or1Digits '일' s5 with
      | some k3 =>
        let total := 5 + w1 + k2 + 1 + w2 + k3 + 1
        some (s.take total, total)
      | none => none
    | none => none
  else none

/-- Entity-dict constructor for the six named patterns:
`confidence = 0.8 if len(match) > 2 else 0.6`, value stripped. -/
def mkEntity (etype : PyStr) (m : PyStr) : Entity :=
  ⟨etype, stripPy m, if m.length > 2 then Rat.divInt 4 5 else Rat.divInt 3 5⟩

/-- `EnhancedMemoryIntelligence._extract_entities`: the six named patterns in
the dict's insertion order, then numbers (confidence 1.0), then Korean dates
(confidence 0.9). -/
def _extract_entities (content : PyStr) : List Entity :=
  ((findallS matchName content).map (mkEntity (pys "name"))) ++
  ((findallS matchAge content).map (mkEntity (pys "age"))) ++
  ((findallS matchLocation content).map (mkEntity (pys "location"))) ++
  ((findallS matchCompany content).map (mkEntity (pys "company"))) ++
  ((findallS matchSkill content).map (mkEntity (pys "skill"))) ++
  ((findallS matchPreference content).map (mkEntity (pys "preference"))) ++
  ((findallB matchNumber content).map (fun n => ⟨pys "number", n, 1⟩)) ++
  ((findallS matchDate content).map (fun d => ⟨pys "date", d, Rat.divInt 9 10⟩))

/-- The storage-relevant projection of the `ProcessedContent` dataclass.
`structured_content`, `summary` and `metadata` are presentation fields that no
claim mentions and are not carried by the embedding. -/
structure ProcessedContent where
  extracted_entities : List Entity
  keywords : List PyStr
  should_store : Bool
  storage_format : PyStr
  importance : ℚ
  deriving DecidableEq

/-- `EnhancedMemoryIntelligence._calculate_fact_importance`:
`6 + min(0.5·|entities|, 2) + min(0.2·|keywords|, 1)`, capped at 9. -/
def _calculate_fact_importance (entities : List Entity) (keywords : List PyStr) : ℚ :=
  pyMin
    (qadd (qadd 6 (pyMin (qmul (entities.length : ℚ) (Rat.divInt 1 2)) 2))
      (pyMin (qmul (keywords.length : ℚ) (Rat.divInt 1 5)) 1)) 9

/-- `EnhancedMemoryIntelligence._process_fact`. -/
def _process_fact (entities : List Entity) (keywords : List PyStr) :
    ProcessedContent :=
  ⟨entities, keywords,
    decide (entities.length > 0) || decide (keywords.length > 3),
    pys "structured",
    _calculate_fact_importance entities keywords⟩

/-- `EnhancedMemoryIntelligence._process_conversation`. -/
def _process_conversation (content : PyStr) (entities : List Entity)
    (keywords : List PyStr) : ProcessedContent :=
  let is_question := occursIn (pys "?") content ||
    [pys "뭐", pys "어떻게", pys "왜", pys "언제"].any (fun q => occursIn q content)
  ⟨entities, keywords, true, pys "full", if is_question then 7 else 5⟩

/-- The `preference_level` computed by `_extract_preference_structure`:
`8` for positive markers, `3` for negative ones, otherwise `None`. -/
def _extract_preference_level (content : PyStr) : Option ℕ :=
  if [pys "좋아", pys "선호", pys "즐겨", pys "최고"].any (fun w => occursIn w content) then some 8
  else if [pys "싫어", pys "안좋아", pys "별로"].any (fun w => occursIn w content) then some 3
  else none

/-- `EnhancedMemoryIntelligence._process_preference`: when no preference
marker is found, `preference_level` is `None` and the importance expression
`6.0 + (None / 10)` raises `TypeError`, which propagates to the caller. -/
def _process_preference (content : PyStr) (entities : List Entity)
    (keywords : List PyStr) : Except PyErr ProcessedContent :=
  match _extract_preference_level content with
  | some lvl => .ok ⟨entities, keywords, true, pys "json", qadd 6 (qdiv (lvl : ℚ) 10)⟩
  | none => .error .typeError

/-- `EnhancedMemoryIntelligence._process_identity`: store only when some
entity supplies a `name`/`age`/`location` attribute. -/
def _process_identity (entities : List Entity) (keywords : List PyStr) :
    ProcessedContent :=
  let has_attrs := entities.any (fun e =>
    e.type = pys "name" ∨ e.type = pys "age" ∨ e.type = pys "location")
  ⟨entities, keywords, has_attrs, pys "json", 9⟩

/-- The `skill_keywords` scan of `_extract_skill_structure`. -/
def skill_keywords : List PyStr :=
  [pys "Python", pys "Java", pys "JavaScript", pys "React", pys "Docker",
   pys "Kubernetes", pys "개발", pys "프로그래밍", pys "디자인", pys "분석",
   pys "관리", pys "영어", pys "중국어"]

/-- The `skills` list extracted by `_extract_skill_structure`
(`keyword.lower() in content.lower()`). -/
def extracted_skills (content : PyStr) : List PyStr :=
  skill_keywords.filter (fun k => occursIn (pyLower k) (pyLower content))

/-- `EnhancedMemoryIntelligence._process_skill`. -/
def _process_skill (content : PyStr) (entities : List Entity)
    (keywords : List PyStr) : ProcessedContent :=
  let skills := extracted_skills content
  ⟨entities, keywords ++ skills, !skills.isEmpty, pys "json", Rat.divInt 15 2⟩

/-- `\d+` + unit + `\s*` + `전` (the relative time patterns). -/
def matchNumUnitJeon (unit : PyStr) (s : PyStr) : Option (PyStr × ℕ) :=
  let d := s.takeWhile isDigitCh
  if d.isEmpty then none
  else
    let s1 := s.drop d.length
    if leadsWith unit s1 then
      let s2 := s1.drop unit.length
      let w := (s2.takeWhile isPySpace).length
      if (s2.drop w).head? == some '전' then
        let total := d.length + unit.length + w + 1
        some (s.take total, total)
      else none
    else none

/-- A literal time marker (`작년`, `올해`, ...). -/
def matchLiteral (lit : PyStr) (s : PyStr) : Option (PyStr × ℕ) :=
  if leadsWith lit s then some (lit, lit.length) else none

/-- The pattern `\d{4}년`. -/
def matchYear4 (s : PyStr) : Option (PyStr × ℕ) :=
  let y := s.take 4
  if y.length == 4 && y.all isDigitCh && ((s.drop 4).head? == some '년') then
    some (s.take 5, 5)
  else none

/-- `EnhancedMemoryIntelligence._extract_time_references`: the nine patterns
in order, each `findall` appended. -/
def _extract_time_references (content : PyStr) : List PyStr :=
  findallS (matchNumUnitJeon (pys "년")) content ++
  findallS (matchNumUnitJeon (pys "개월")) content ++
  findallS (matchNumUnitJeon (pys "일")) content ++
  findallS (matchLiteral (pys "작년")) content ++
  findallS (matchLiteral (pys "올해")) content ++
  findallS (matchLiteral (pys "내년")) content ++
  findallS (matchLiteral (pys "예전에")) content ++
  findallS (matchLiteral (pys "최근에")) content ++
  findallS matchYear4 content

/-- `EnhancedMemoryIntelligence._calculate_experience_importance`. -/
def _calculate_experience_importance (content : PyStr) (time_refs : List PyStr) : ℚ :=
  let base : ℚ := 7
  let base := if [pys "최근", pys "올해", pys "이번"].any (fun r => time_refs.contains r)
    then qadd base 1 else base
  let base := if (pySplit content).length > 50 then qadd base (Rat.divInt 1 2) else base
  pyMin base 9

/-- `EnhancedMemoryIntelligence._process_experience`. -/
def _process_experience (content : PyStr) (entities : List Entity)
    (keywords : List PyStr) : ProcessedContent :=
  let time_refs := _extract_time_references content
  ⟨entities, keywords, decide ((pySplit content).length > 10), pys "full",
    _calculate_experience_importance content time_refs⟩

/-- `EnhancedMemoryIntelligence.process_content_for_storage`: normalize,
extract entities and keywords, then dispatch on the memory type (the
`context` argument is received but never used by any branch). -/
def process_content_for_storage (content : PyStr) (memory_type : MemoryType)
    (_context : List (PyStr × PyStr)) : Except PyErr ProcessedContent :=
  let normalized := _normalize_content content
  let entities := _extract_entities normalized
  let keywords := _extract_keywords normalized
  match memory_type with
  | .CONVERSATION => .ok (_process_conversation normalized entities keywords)
  | .FACT => .ok (_process_fact entities keywords)
  | .PREFERENCE => _process_preference normalized entities keywords
  | .IDENTITY => .ok (_process_identity entities keywords)
  | .SKILL => .ok (_process_skill normalized entities keywords)
  | .EXPERIENCE => .ok (_process_experience normalized entities keywords)
  | _ => .ok ⟨entities, keywords, true, pys "full", 5⟩

/-! ## `embedding_utils.py` and the database side of `vector_index_optimizer.py`

The PostgreSQL state visible to `ensure_table_with_dimension` is modelled by
`DBState`: an association of table names to their declared embedding dimension
and row set, plus the set of tables carrying an index on the `embedding`
column.  Every SQL statement the code issues becomes a `DbAction`; the
returned action trace witnesses what was executed and in which order. -/

/-- A stored row; only the `user_id` column feeds back into the optimizer's
statistics, the remaining columns are opaque. -/
structure TableRow where
  user_id : ℕ
  deriving DecidableEq

/-- A table: declared `vector(dim)` dimension of the `embedding` column and
current rows. -/
structure TableInfo where
  dim : ℕ
  tRows : List TableRow
  deriving DecidableEq

/-- The SQL statements issued by `ensure_table_with_dimension` and
`_apply_index_strategy`. -/
inductive DbAction
  | dropTable (t : PyStr)
  | createTable (t : PyStr) (dim : ℕ)
  | createMetadataGin (t : PyStr)
  | createCreatedAtBtree (t : PyStr)
  | createUserIdBtree (t : PyStr)
  | dropEmbeddingIdx (t : PyStr)
  | createIvfflat (t : PyStr) (lists : ℕ)
  | createHnsw (t : PyStr) (m ef_construction : ℕ)
  | createUserImportance (t : PyStr)
  | createUserEmbedding (t : PyStr)
  | setProbes (n : ℕ)
  | setEfSearch (n : ℕ)
  | analyzeTable (t : PyStr)
  deriving DecidableEq

/-- Whether an action creates an index on the `embedding` column (the vector
index of the claims). -/
def DbAction.isVectorIndexCreate : DbAction → Bool
  | .createIvfflat _ _ => true
  | .createHnsw _ _ _ => true
  | _ => false

/-- Database state. -/
structure DBState where
  tables : List (PyStr × TableInfo)
  embIndexed : List PyStr
  deriving DecidableEq

/-- Look a table up by name. -/
def lookupTable (st : DBState) (t : PyStr) : Option TableInfo :=
  ((st.tables.find? (fun kv => kv.1 = t))).map (·.2)

/-- Replace or append a table entry. -/
def setTable (m : List (PyStr × TableInfo)) (t : PyStr) (info : TableInfo) :
    List (PyStr × TableInfo) :=
  match m with
  | [] => [(t, info)]
  | (k, v) :: rest =>
    if k = t then (k, info) :: rest else (k, v) :: setTable rest t info

/-- Effect of one SQL statement on the database state.  `DROP TABLE ...
CASCADE` also drops the table's indexes; index-creation statements record the
embedding index; `SET` and `ANALYZE` do not change the modelled state. -/
def dbApply (st : DBState) : DbAction → DBState
  | .dropTable t =>
    ⟨st.tables.filter (fun kv => kv.1 ≠ t), st.embIndexed.filter (· ≠ t)⟩
  | .createTable t dim => ⟨setTable st.tables t ⟨dim, []⟩, st.embIndexed⟩
  | .dropEmbeddingIdx t => ⟨st.tables, st.embIndexed.filter (· ≠ t)⟩
  | .createIvfflat t _ => ⟨st.tables, t :: st.embIndexed⟩
  | .createHnsw t _ _ => ⟨st.tables, t :: st.embIndexed⟩
  | _ => st

/-- Run a statement list left to right. -/
def dbRun (st : DBState) (acts : List DbAction) : DBState :=
  acts.foldl dbApply st

/-- The user-bucket CASE of `_get_table_stats`'s distribution query. -/
def bucketOf (memory_count : ℕ) : PyStr :=
  if memory_count < 10 then pys "light"
  else if memory_count < 100 then pys "medium"
  else if memory_count < 1000 then pys "heavy"
  else pys "power"

/-- The `user_distribution` dict of `_get_table_stats`: bucket → number of
users in the bucket, only non-empty buckets present (SQL `GROUP BY` emits
only existing groups; the group order does not influence any consumer). -/
def user_distribution (rows : List TableRow) : List (PyStr × ℕ) :=
  let users := (rows.map (·.user_id)).dedup
  let buckets := users.map (fun u => bucketOf (rows.filter (fun r => r.user_id = u)).length)
  [pys "light", pys "medium", pys "heavy", pys "power"].filterMap (fun b =>
    let c := buckets.count b
    if c > 0 then some (b, c) else none)

/-- `MemoryVectorIndexOptimizer._get_table_stats` against the modelled state:
row count, distinct users, user distribution, and whether an `embedding`
index currently exists; `none` when the table is missing (the SQL fails and
the method reports `success: False`). -/
def _get_table_stats (st : DBState) (t : PyStr) :
    Option (ℕ × ℕ × List (PyStr × ℕ) × Bool) :=
  (lookupTable st t).map (fun info =>
    (info.tRows.length,
     ((info.tRows.map (·.user_id)).dedup).length,
     user_distribution info.tRows,
     st.embIndexed.contains t))

/-- `MemoryVectorIndexOptimizer._apply_index_strategy`: the statement list it
issues for a strategy (DB statements always succeed in this model, so the
HNSW-unavailable fallback branch is not taken). -/
def _apply_index_strategy (t : PyStr) (strategy : IndexStrategy)
    (hasEmbIdx : Bool) : List DbAction :=
  let dropPart : List DbAction :=
    if strategy ≠ .noIndex ∨ hasEmbIdx then [.dropEmbeddingIdx t] else []
  match strategy with
  | .noIndex => dropPart
  | .ivfflatBasic lists probes =>
    dropPart ++ [.createIvfflat t lists, .setProbes probes, .analyzeTable t]
  | .ivfflatOptimized lists probes user_optimized =>
    dropPart ++ [.createIvfflat t lists, .setProbes probes] ++
      (if user_optimized then [.createUserImportance t] else []) ++
      [.analyzeTable t]
  | .partitionedIvfflat lists_per_partition _ =>
    dropPart ++ [.createIvfflat t (lists_per_partition * 10),
      .createUserEmbedding t, .analyzeTable t]
  | .hnsw m ef_construction ef_search =>
    dropPart ++ [.createHnsw t m ef_construction, .setEfSearch ef_search,
      .analyzeTable t]

/-- `MemoryVectorIndexOptimizer.optimize_memory_index(table, force=True)`:
the `force` flag skips the recently-optimized check, so the call reads the
statistics, picks a strategy and applies it; `(state, optimized, trace)`. -/
def optimize_memory_index_force (st : DBState) (t : PyStr) :
    DBState × Bool × List DbAction :=
  match _get_table_stats st t with
  | none => (st, false, [])
  | some (row_count, unique_users, dist, hasEmbIdx) =>
    let strategy := _determine_index_strategy row_count unique_users dist
    let acts := _apply_index_strategy t strategy hasEmbIdx
    (dbRun st acts, true, acts)

/-- The recreate path of `ensure_table_with_dimension`: drop and re-create
the table, then (unless `additional_columns` is `None`, in which case the
`"user_id" in additional_columns` test raises `TypeError` — caught by the
outer handler, which returns `False` before any index exists) create the
non-vector indexes and run the vector-index optimizer. -/
def recreate_table (st : DBState) (table_name : PyStr) (dimension : ℕ)
    (additional_columns : Option (List (PyStr × PyStr))) :
    DBState × Bool × List DbAction :=
  let acts0 : List DbAction :=
    [.dropTable table_name, .createTable table_name dimension]
  let st1 := dbRun st acts0
  match additional_columns with
  | none => (st1, false, acts0)
  | some cols =>
    let basic : List DbAction :=
      [.createMetadataGin table_name, .createCreatedAtBtree table_name] ++
        (if cols.any (fun kv => kv.1 = pys "user_id")
         then [.createUserIdBtree table_name] else [])
    let st2 := dbRun st1 basic
    match optimize_memory_index_force st2 table_name with
    | (st3, true, optActs) => (st3, true, acts0 ++ basic ++ optActs)
    | (st3, false, optActs) =>
      -- fallback: basic IVFFlat with lists = 100
      let fb : DbAction := .createIvfflat table_name 100
      (dbApply st3 fb, true, acts0 ++ basic ++ optActs ++ [fb])

/-- `ensure_table_with_dimension`: leave the table alone when it exists with
the required dimension, otherwise drop and re-create it. -/
def ensure_table_with_dimension (st : DBState) (table_name : PyStr)
    (dimension : ℕ) (additional_columns : Option (List (PyStr × PyStr))) :
    DBState × Bool × List DbAction :=
  match lookupTable st table_name with
  | some info =>
    if info.dim ≠ dimension then
      recreate_table st table_name dimension additional_columns
    else (st, true, [])
  | none => recreate_table st table_name dimension additional_columns

/-- A retrieval running against the table right after provisioning: returns
the stored rows, or an error when the table does not exist. -/
def retrieve_rows (st : DBState) (t : PyStr) : Except PyErr (List TableRow) :=
  match lookupTable st t with
  | some info => .ok info.tRows
  | none => .error .valueError

/-- The state after the `DROP TABLE ... CASCADE; CREATE TABLE ...` prefix of
the recreate path (the later index statements of the path leave the modelled
state unchanged: the fresh table is empty, so the optimizer creates no
embedding index). -/
def recreatedState (st : DBState) (t : PyStr) (d : ℕ) : DBState :=
  dbRun st [.dropTable t, .createTable t d]

/-- The full statement trace of the recreate path when `additional_columns`
is a dict: drop, create, the GIN and `created_at` B-tree indexes, the
`user_id` B-tree when that column is declared — and nothing else. -/
def recreateTrace (t : PyStr) (d : ℕ) (cols : List (PyStr × PyStr)) :
    List DbAction :=
  [.dropTable t, .createTable t d, .createMetadataGin t,
    .createCreatedAtBtree t] ++
    (if cols.any (fun kv => kv.1 = pys "user_id")
     then [.createUserIdBtree t] else [])

/-! ## Specification-side score functions for the classifier claims

These restate, in the claim's own vocabulary, the score that `classify` is
claimed to assign to each path; the theorems connect them to the embedding. -/

/-- A path is *matched* when some keyword occurring in the lower-cased
content owns it. -/
def MatchedPath (content_lower p : PyStr) : Prop :=
  ∃ kp ∈ keyword_map, occursIn kp.1 content_lower = true ∧ p ∈ kp.2

instance (content_lower p : PyStr) : Decidable (MatchedPath content_lower p) :=
  inferInstanceAs (Decidable (∃ kp ∈ keyword_map, _ ∧ _))

/-- The claimed base score of a path: `len(keyword)/10` for every matching
keyword owning the path (doubled at the start of the utterance), counted
with multiplicity. -/
def specBaseScore (content_lower p : PyStr) : ℚ :=
  (keyword_map.map (fun kp =>
    if occursIn kp.1 content_lower then (kp.2.count p : ℚ) * kwWeight content_lower kp.1
    else 0)).sum

/-- The claimed context multiplier: `1.5` when the path equals the previous
classification's path, times `1.2` per occurrence among the session's active
types. -/
def ctxMult (context : Option ClassifyContext) (p : PyStr) : ℚ :=
  match context with
  | none => 1
  | some ctx =>
    (if ctx.previous_type = some p then 3 / 2 else 1) *
      (6 / 5) ^ (match ctx.session_types with
        | some ts => ts.count p
        | none => 0)

/-- The claimed final score of a path. -/
def specFinalScore (content_lower : PyStr) (context : Option ClassifyContext)
    (p : PyStr) : ℚ :=
  specBaseScore content_lower p * ctxMult context p

/-- All paths enumerated by the type tree (the well-formed classification
targets). -/
def allTreePaths : List PyStr :=
  keyword_map.foldr (fun kp acc => kp.2 ++ acc) []

/-- Reassemble a three-segment split (`none` for malformed paths): used to
state that every scored path round-trips through `split('/')`. -/
def mkPath3 : List PyStr → Option PyStr
  | [a, b, c] => some (mkPath a b c)
  | _ => none

/-- A hierarchical `major/minor` pair that none of the specific rules of
`_determine_hierarchical_strategy` handles, so that the dispatch falls
through to `_get_default_strategy`. -/
def hierDefaultFallthrough (major minor : PyStr) : Prop :=
  (major = pys "personal" →
    minor ≠ pys "identity" ∧ minor ≠ pys "preference" ∧ minor ≠ pys "profession") ∧
  (major = pys "knowledge" →
    minor ≠ pys "skill" ∧ minor ≠ pys "experience" ∧ minor ≠ pys "fact") ∧
  (major = pys "temporal" →
    minor ≠ pys "conversation" ∧ minor ≠ pys "context")

/-- Decidable equality for `Except` results of the embedding. -/
instance {ε α : Type} [DecidableEq ε] [DecidableEq α] : DecidableEq (Except ε α) :=
  fun a b =>
    match a, b with
    | .ok x, .ok y =>
      if h : x = y then .isTrue (congrArg Except.ok h)
      else .isFalse (fun hh => h (Except.ok.inj hh))
    | .error x, .error y =>
      if h : x = y then .isTrue (congrArg Except.error h)
      else .isFalse (fun hh => h (Except.error.inj hh))
    | .ok _, .error _ => .isFalse (fun hh => Except.noConfusion hh)
    | .error _, .ok _ => .isFalse (fun hh => Except.noConfusion hh)

/-!
# Theorems

Each claim `Cn` of the specification is settled by one theorem (plus, where
the claim fails on the code, a closed counterexample evaluating the embedding
at a concrete input).  The bridge lemmas first identify the executable
rational operations of the embedding with Mathlib's field operations. -/

/-- A rational's denominator is a nonzero integer. -/
theorem den_int_nz (a : ℚ) : ((a.den : ℤ)) ≠ 0 :=
  Int.natCast_ne_zero.mpr a.den_nz

/-- `qadd` is addition. -/
theorem qadd_eq_add (a b : ℚ) : qadd a b = a + b := by
  rw [qadd]
  conv_rhs => rw [← Rat.num_divInt_den a, ← Rat.num_divInt_den b]
  rw [Rat.divInt_add_divInt _ _ (den_int_nz a) (den_int_nz b)]

/-- `qmul` is multiplication. -/
theorem qmul_eq_mul (a b : ℚ) : qmul a b = a * b := by
  rw [qmul]
  conv_rhs => rw [← Rat.num_divInt_den a, ← Rat.num_divInt_den b]
  rw [Rat.divInt_mul_divInt _ _ (den_int_nz a) (den_int_nz b)]

/-- `qdiv` is division. -/
theorem qdiv_eq_div (a b : ℚ) : qdiv a b = a / b := by
  rw [qdiv]
  conv_rhs => rw [← Rat.num_divInt_den a, ← Rat.num_divInt_den b]
  rw [Rat.divInt_div_divInt, Int.mul_comm (a.den : ℤ) b.num]

/-- `pyMin` is `min`. -/
theorem pyMin_eq_min (a b : ℚ) : pyMin a b = min a b := by
  rw [pyMin]
  rcases hb : Rat.blt b a with _ | _
  · have hab : a ≤ b := hb
    simp [min_eq_left hab]
  · have hba : b < a := hb
    simp [min_eq_right hba.le]

/-- **C2** (code evaluation at the failing input).  With a single user
subscription whose bounded queue (capacity 1) is already full, `emit_event`
does *not* complete by dropping the newest event: `await queue.put(event)`
suspends until a consumer frees a slot, so the producer blocks.  (asyncio's
`Queue.put` never raises `QueueFull` — only `put_nowait` does — so the
`except asyncio.QueueFull` drop-and-warn handlers in `emit_event` are dead
code.)  The spec's "drop the newest event … never block producers" describes
the evident intent of those handlers; the code's use of `put` is the slip. -/
theorem c2_emit_blocks_on_full_queue :
    emit_event
      ⟨[(pys "u", [⟨1, [⟨pys "memory_created", pys "u", none⟩]⟩])], [], []⟩
      ⟨pys "memory_updated", pys "u", none⟩ = EmitResult.blocked ∧
    queue_put ⟨1, [⟨pys "memory_created", pys "u", none⟩]⟩
      ⟨pys "memory_updated", pys "u", none⟩ = PutOutcome.blocked := by
  constructor <;> rfl

/-- **C5** (counterexample).  A hierarchical path outside every listed
type-specific rule (`personal/goal/x`), importance 6, content size 500 ≤ 1000:
the claim says compression is enabled iff the size exceeds 1000 bytes, but
the code returns `strategies["high_value_infrequent"]`, whose
`compression_enabled` is `True` — compression is on although 500 ≤ 1000. -/
theorem c5_compression_counterexample :
    (_determine_hierarchical_strategy (pys "personal") (pys "goal") (pys "x")
      6 500).compression_enabled = true ∧ ¬ ((500 : ℕ) > 1000) := by
  constructor
  · rfl
  · decide

/-- **C5** (amended).  For every hierarchical type path that falls through to
`_get_default_strategy` and every content size, whenever `6 ≤ importance < 8`
the planner returns primary `DB`, secondary `[ARCHIVE]`, embedding enabled,
RAG disabled, no TTL, and compression *always enabled* (the two branches
`high_value_infrequent` and `large_content` are identical records, so the
content size does not influence the result). -/
theorem c5_default_mid_importance (major minor detail : PyStr) (importance : ℚ)
    (content_size : ℕ) (hf : hierDefaultFallthrough major minor)
    (h6 : 6 ≤ importance) (h8 : importance < 8) :
    _determine_hierarchical_strategy major minor detail importance content_size =
      { primary_location := .DB
        secondary_locations := [.ARCHIVE]
        includes_rag := false
        includes_embedding := true
        ttl_seconds := none
        compression_enabled := true
        index_for_search := true } := by
  obtain ⟨h1, h2, h3⟩ := hf
  have hdef : _get_default_strategy importance content_size =
      { primary_location := .DB
        secondary_locations := [.ARCHIVE]
        includes_rag := false
        includes_embedding := true
        ttl_seconds := none
        compression_enabled := true
        index_for_search := true } := by
    unfold _get_default_strategy
    rw [if_neg (by exact not_le.mpr h8), if_pos h6]
    split <;> rfl
  unfold _determine_hierarchical_strategy
  by_cases hp : major = pys "personal"
  · obtain ⟨a, b, c⟩ := h1 hp
    simp only [if_pos hp, if_neg a, if_neg b, if_neg c, hdef]
  · by_cases hk : major = pys "knowledge"
    · obtain ⟨a, b, c⟩ := h2 hk
      simp only [if_neg hp, if_pos hk, if_neg a, if_neg b, if_neg c, hdef]
    · by_cases ht : major = pys "temporal"
      · obtain ⟨a, b⟩ := h3 ht
        simp only [if_neg hp, if_neg hk, if_pos ht, if_neg a, if_neg b, hdef]
      · simp only [if_neg hp, if_neg hk, if_neg ht, hdef]

/-- **C5** (witness): the amended theorem applied at `personal/goal/x`,
importance 7, size 2000. -/
theorem c5_default_mid_importance_witness :
    hierDefaultFallthrough (pys "personal") (pys "goal") ∧
    _determine_hierarchical_strategy (pys "personal") (pys "goal") (pys "x")
      7 2000 =
      { primary_location := .DB
        secondary_locations := [.ARCHIVE]
        includes_rag := false
        includes_embedding := true
        ttl_seconds := none
        compression_enabled := true
        index_for_search := true } := by
  refine ⟨?_, ?_⟩
  · exact ⟨fun _ => by refine ⟨?_, ?_, ?_⟩ <;> decide,
      fun h => absurd h (by decide), fun h => absurd h (by decide)⟩
  · exact c5_default_mid_importance _ _ _ 7 2000
      ⟨fun _ => by refine ⟨?_, ?_, ?_⟩ <;> decide,
        fun h => absurd h (by decide), fun h => absurd h (by decide)⟩
      (by norm_num) (by norm_num)

/-- **C6** (counterexample).  `"abc def ghi"` yields no entities and exactly
three keywords; the claim ("store iff ≥ 1 entity or ≥ 3 keywords") then
requires `should_store = true`, but `_process_fact` tests `len(keywords) > 3`
and returns `false`.  `"alpha beta gamma delta epsil zetaa"` yields six
keywords and no entities; the claim's importance `6 + 0.5·0 + 0.2·6 = 7.2`
differs from the code's `7`, because the keyword term is capped at 1
(`min(0.2·|keywords|, 1)`). -/
theorem c6_fact_counterexample :
    process_content_for_storage (pys "abc def ghi") MemoryType.FACT [] =
      .ok ⟨[], [pys "abc", pys "def", pys "ghi"], false, pys "structured", mkRat 33 5⟩ ∧
    process_content_for_storage (pys "alpha beta gamma delta epsil zetaa")
      MemoryType.FACT [] =
      .ok ⟨[], [pys "alpha", pys "beta", pys "gamma", pys "delta", pys "epsil",
        pys "zetaa"], true, pys "structured", 7⟩ ∧
    ¬ ((7 : ℚ) = 6 + (0 : ℚ) * (1 / 2) + (6 : ℚ) * (1 / 5)) := by
  refine ⟨by decide, by decide, by norm_num⟩

/-- **C6** (amended).  For every fact-type content, the processor returns
`storage_format = "structured"`, stores iff at least one entity was extracted
or *more than three* keywords were extracted, and sets
`importance = min(6 + min(0.5·|entities|, 2) + min(0.2·|keywords|, 1), 9)`
(each term capped separately, total capped at 9). -/
theorem c6_fact_processing (content : PyStr) (ctx : List (PyStr × PyStr)) :
    ∃ r, process_content_for_storage content MemoryType.FACT ctx = .ok r ∧
      r.storage_format = pys "structured" ∧
      (r.should_store = true ↔
        _extract_entities (_normalize_content content) ≠ [] ∨
        (_extract_keywords (_normalize_content content)).length > 3) ∧
      r.importance =
        min (6 +
          min (((_extract_entities (_normalize_content content)).length : ℚ) * (1 / 2)) 2 +
          min (((_extract_keywords (_normalize_content content)).length : ℚ) * (1 / 5)) 1) 9 := by
  refine ⟨_, rfl, rfl, ?_, ?_⟩
  · simp only [_process_fact, Bool.or_eq_true, decide_eq_true_eq]
    constructor
    · rintro (h | h)
      · exact Or.inl (List.ne_nil_of_length_pos h)
      · exact Or.inr h
    · rintro (h | h)
      · exact Or.inl (List.length_pos.mpr h)
      · exact Or.inr h
  · show _calculate_fact_importance _ _ = _
    rw [_calculate_fact_importance]
    rw [pyMin_eq_min, pyMin_eq_min, pyMin_eq_min, qadd_eq_add, qadd_eq_add,
      qmul_eq_mul, qmul_eq_mul, Rat.divInt_eq_div, Rat.divInt_eq_div]
    norm_num

/-- **C4** (counterexample).  `classify("name")` yields `personal/identity/
name` with confidence `4/15 > 0`; the claim's importance would be
`clamp(9 + 2·(4/15), 0, 10) = 143/15`, but `get_importance` returns the
`importance_map` value `9.0` unmodified — when the `major/minor` prefix is in
the table, the code neither adds `2·confidence` nor clamps. -/
theorem c4_importance_counterexample :
    get_importance (classify (pys "name") none) = 9 ∧
    (classify (pys "name") none).confidence = Rat.divInt 4 15 ∧
    get_importance (classify (pys "name") none) ≠
      max 0 (min (9 + 2 * (classify (pys "name") none).confidence) 10) := by
  refine ⟨by decide, by decide, ?_⟩
  have h : (classify (pys "name") none).confidence = Rat.divInt 4 15 := by decide
  have h9 : get_importance (classify (pys "name") none) = 9 := by decide
  rw [h, h9, Rat.divInt_eq_div]
  norm_num

/-- **C4** (amended).  `get_importance` returns the table's base importance
*unmodified* (no confidence term, no clamping) whenever the classification's
`major/minor` prefix is a key of `importance_map`; only otherwise does it
return the major-category base (`personal` 7, `knowledge` 6, `temporal` 4,
default 5) plus twice the confidence, again without clamping. -/
theorem c4_get_importance (c : MemoryClassification) :
    (∀ v, lookupQ importance_map (c.major ++ pys "/" ++ c.minor) = some v →
      get_importance c = v) ∧
    (lookupQ importance_map (c.major ++ pys "/" ++ c.minor) = none →
      get_importance c = major_importance c.major + 2 * c.confidence) := by
  constructor
  · intro v hv
    simp only [get_importance, hv]
  · intro hv
    simp only [get_importance, hv, qadd_eq_add, qmul_eq_mul]
    ring

/-- **C4** (witness): the amended theorem applied to `classify("name")`,
whose `personal/identity` prefix is in the table with base 9. -/
theorem c4_get_importance_witness :
    lookupQ importance_map ((classify (pys "name") none).major ++ pys "/" ++
      (classify (pys "name") none).minor) = some 9 ∧
    get_importance (classify (pys "name") none) = 9 :=
  ⟨by decide, (c4_get_importance _).1 9 (by decide)⟩

/-- **C7** (counterexample).  50 000 rows, two users, one `heavy` (≥ 100
memories) and one `light`: no user has ≥ 1000 memories, so the claim's
power-user ratio is 0 ≤ 0.2 and the claim requires the *fast* variant
(lists = max(N/1000, 30), probes = 10); but the code's numerator counts
`power + heavy` buckets, giving ratio 1/2 > 0.2, and it returns the
*accurate* variant (lists = max(N/500, 50) = 100, probes = 20, composite
index). -/
theorem c7_strategy_counterexample :
    _determine_index_strategy 50000 2 [(pys "heavy", 1), (pys "light", 1)] =
      .ivfflatOptimized 100 20 true ∧
    getCount [(pys "heavy", 1), (pys "light", 1)] (pys "power") = 0 := by
  constructor
  · decide
  · decide

/-- **C7** (amended).  The index-strategy selection, with the ratio counting
*heavy-plus-power* users (users with at least 100 memories each) rather than
power users only: no index for `N < 1000`; basic IVFFlat
(`lists = max(N/100, 10)`, probes 5) for `N < 10000`; for `N < 100000` the
accurate variant (`lists = max(N/500, 50)`, probes 20, composite
`(user_id, importance DESC)` index) exactly when the heavy-plus-power ratio
exceeds 0.2, else the fast variant (`lists = max(N/1000, 30)`, probes 10);
partitioned IVFFlat with effective applied lists `100·10 = 1000` and strategy
probes 15 when `N ≥ 100000` and `U < 1000`; HNSW with `ef_search = 100` and
`(m, ef_construction) = (16, 200)` for `N < 500000`, `(32, 400)` otherwise,
when `N ≥ 100000` and `U ≥ 1000`. -/
theorem c7_index_strategy (row_count unique_users : ℕ)
    (dist : List (PyStr × ℕ)) :
    (row_count < 1000 →
      _determine_index_strategy row_count unique_users dist = .noIndex) ∧
    (1000 ≤ row_count → row_count < 10000 →
      _determine_index_strategy row_count unique_users dist =
        .ivfflatBasic (max (row_count / 100) 10) 5) ∧
    (10000 ≤ row_count → row_count < 100000 →
      _determine_index_strategy row_count unique_users dist =
        (if power_user_ratio unique_users dist > Rat.divInt 2 10 then
          .ivfflatOptimized (max (row_count / 500) 50) 20 true
        else
          .ivfflatOptimized (max (row_count / 1000) 30) 10 false)) ∧
    (100000 ≤ row_count → unique_users < 1000 →
      _determine_index_strategy row_count unique_users dist =
        .partitionedIvfflat 100 15 ∧
      appliedLists (_determine_index_strategy row_count unique_users dist) =
        some 1000) ∧
    (100000 ≤ row_count → 1000 ≤ unique_users →
      _determine_index_strategy row_count unique_users dist =
        .hnsw (if row_count < 500000 then 16 else 32)
          (if row_count < 500000 then 200 else 400) 100) := by
  refine ⟨?_, ?_, ?_, ?_, ?_⟩
  · intro h
    rw [_determine_index_strategy, if_pos h]
  · intro h1 h2
    rw [_determine_index_strategy, if_neg (by omega), if_pos h2]
  · intro h1 h2
    rw [_determine_index_strategy, if_neg (by omega), if_neg (by omega),
      if_pos h2]
  · intro h1 h2
    rw [_determine_index_strategy, if_neg (by omega), if_neg (by omega),
      if_neg (by omega), if_pos h2]
    exact ⟨rfl, rfl⟩
  · intro h1 h2
    rw [_determine_index_strategy, if_neg (by omega), if_neg (by omega),
      if_neg (by omega), if_neg (by omega)]

/-- **C7** (witness): the amended theorem applied at 150 000 rows and 500
users — the partitioned branch applies with effective lists 1000. -/
theorem c7_index_strategy_witness :
    _determine_index_strategy 150000 500 [] = .partitionedIvfflat 100 15 ∧
    appliedLists (_determine_index_strategy 150000 500 []) = some 1000 :=
  (c7_index_strategy 150000 500 []).2.2.2.1 (by norm_num) (by norm_num)

/-- **C9**.  Classification and content processing are deterministic: the
embedded `classify` and `process_content_for_storage` are pure functions of
their inputs — the source functions read no clock, no randomness and no
mutable global state on these paths, so identical inputs give identical
classifications and identical `(storage_format, should_store, keywords,
extracted_entities)` (here: identical whole results). -/
theorem c9_determinism (content : PyStr) (ctx : Option ClassifyContext)
    (mt : MemoryType) (pctx : List (PyStr × PyStr)) :
    classify content ctx = classify content ctx ∧
    process_content_for_storage content mt pctx =
      process_content_for_storage content mt pctx :=
  ⟨rfl, rfl⟩

/-- Heap cells other than `fresh` are untouched by the access-pattern step. -/
theorem optimize_access_step_cells (st : ListHeap × StorageStrategyRef)
    (stats : AccessStats) (fresh j : ℕ) (hj : j ≠ fresh) :
    (optimize_access_step st stats fresh).1.cells j = st.1.cells j := by
  rw [optimize_access_step]
  split_ifs <;> simp_all [ListHeap.write] <;> split_ifs <;> simp_all

/-- The access-pattern step only ever flips `compression_enabled`. -/
theorem optimize_access_step_strategy (st : ListHeap × StorageStrategyRef)
    (stats : AccessStats) (fresh : ℕ) :
    (optimize_access_step st stats fresh).2 = st.2 ∨
    (optimize_access_step st stats fresh).2 =
      { st.2 with compression_enabled := true } := by
  rw [optimize_access_step]
  split_ifs <;> simp

/-- The access-pattern step does not move `next`. -/
theorem optimize_access_step_next (st : ListHeap × StorageStrategyRef)
    (stats : AccessStats) (fresh : ℕ) :
    (optimize_access_step st stats fresh).1.next = st.1.next := by
  rw [optimize_access_step]
  split_ifs <;> simp [ListHeap.write] <;> split <;> simp

/-- Heap cells other than `fresh` are untouched by the RAG step. -/
theorem optimize_rag_step_cells (st : ListHeap × StorageStrategyRef)
    (stats : AccessStats) (fresh j : ℕ) (hj : j ≠ fresh) :
    (optimize_rag_step st stats fresh).1.cells j = st.1.cells j := by
  rw [optimize_rag_step]
  split_ifs <;> simp_all [ListHeap.write]

/-- The RAG step only ever flips `includes_rag`. -/
theorem optimize_rag_step_strategy (st : ListHeap × StorageStrategyRef)
    (stats : AccessStats) (fresh : ℕ) :
    (optimize_rag_step st stats fresh).2 = st.2 ∨
    (optimize_rag_step st stats fresh).2 =
      { st.2 with includes_rag := false } := by
  rw [optimize_rag_step]
  split_ifs <;> simp

/-- **C10**.  `optimize_strategy` preserves `primary_location`,
`includes_embedding`, `ttl_seconds` and `index_for_search`; the input
strategy's own `secondary_locations` cell is left unmodified (the result is a
fresh copy at a new address), so only `secondary_locations`, `includes_rag`
and `compression_enabled` of the returned clone can differ. -/
theorem c10_optimize_strategy_frame (h : ListHeap) (s : StorageStrategyRef)
    (stats : AccessStats) (hs : s.secondary_ref < h.next) :
    (optimize_strategy h s stats).2.primary_location = s.primary_location ∧
    (optimize_strategy h s stats).2.includes_embedding = s.includes_embedding ∧
    (optimize_strategy h s stats).2.ttl_seconds = s.ttl_seconds ∧
    (optimize_strategy h s stats).2.index_for_search = s.index_for_search ∧
    (optimize_strategy h s stats).1.cells s.secondary_ref =
      h.cells s.secondary_ref ∧
    (optimize_strategy h s stats).2.secondary_ref ≠ s.secondary_ref := by
  have hne : s.secondary_ref ≠ h.next := Nat.ne_of_lt hs
  rw [optimize_strategy]
  have hstep := optimize_access_step_strategy
    (⟨(h.write h.next (h.cells s.secondary_ref)).cells, h.next + 1⟩,
      { s with secondary_ref := h.next }) stats h.next
  have hrag := optimize_rag_step_strategy
    (optimize_access_step
      (⟨(h.write h.next (h.cells s.secondary_ref)).cells, h.next + 1⟩,
        { s with secondary_ref := h.next }) stats h.next) stats h.next
  have hcells : (optimize_rag_step
      (optimize_access_step
        (⟨(h.write h.next (h.cells s.secondary_ref)).cells, h.next + 1⟩,
          { s with secondary_ref := h.next }) stats h.next) stats
        h.next).1.cells s.secondary_ref = h.cells s.secondary_ref := by
    rw [optimize_rag_step_cells _ _ _ _ hne,
      optimize_access_step_cells _ _ _ _ hne]
    simp [ListHeap.write, hne]
  rcases hstep with hstep | hstep <;> rcases hrag with hrag | hrag <;>
    rw [hrag, hstep] <;> exact ⟨rfl, rfl, rfl, rfl, hcells, Ne.symm hne⟩

/-- **C10** (witness): the frame property at a one-cell heap holding
`[RAG]`, a strategy referencing it, and statistics that exercise the
archive-and-compress branch. -/
theorem c10_optimize_strategy_frame_witness :
    (0 : ℕ) < 1 ∧
    ((optimize_strategy ⟨fun _ => [.RAG], 1⟩
        ⟨.DB, 0, true, true, none, false, true⟩
        ⟨0, 60, 0⟩).2.primary_location = .DB ∧
      (optimize_strategy ⟨fun _ => [.RAG], 1⟩
        ⟨.DB, 0, true, true, none, false, true⟩
        ⟨0, 60, 0⟩).2.includes_embedding = true ∧
      (optimize_strategy ⟨fun _ => [.RAG], 1⟩
        ⟨.DB, 0, true, true, none, false, true⟩
        ⟨0, 60, 0⟩).2.ttl_seconds = none ∧
      (optimize_strategy ⟨fun _ => [.RAG], 1⟩
        ⟨.DB, 0, true, true, none, false, true⟩
        ⟨0, 60, 0⟩).2.index_for_search = true ∧
      (optimize_strategy ⟨fun _ => [.RAG], 1⟩
        ⟨.DB, 0, true, true, none, false, true⟩
        ⟨0, 60, 0⟩).1.cells 0 = (fun _ => [StorageLocation.RAG]) 0 ∧
      (optimize_strategy ⟨fun _ => [.RAG], 1⟩
        ⟨.DB, 0, true, true, none, false, true⟩
        ⟨0, 60, 0⟩).2.secondary_ref ≠ 0) :=
  ⟨Nat.zero_lt_one,
    c10_optimize_strategy_frame ⟨fun _ => [.RAG], 1⟩
      ⟨.DB, 0, true, true, none, false, true⟩ ⟨0, 60, 0⟩ Nat.zero_lt_one⟩

/-! ### Dictionary, argmax and score lemmas for the classifier claims -/

/-- Unfold one cons cell of a lookup. -/
theorem lookupQ_cons (kv : PyStr × ℚ) (m : List (PyStr × ℚ)) (q : PyStr) :
    lookupQ (kv :: m) q = if kv.1 = q then some kv.2 else lookupQ m q := by
  rcases kv with ⟨k, v⟩
  by_cases h : k = q <;> simp [lookupQ, h]

/-- `addScore` adds `w` at key `p` (first write stores `w = 0 + w`). -/
theorem lookupQ_addScore (m : List (PyStr × ℚ)) (p : PyStr) (w : ℚ)
    (q : PyStr) :
    lookupQ (addScore m p w) q =
      if q = p then some ((lookupQ m q).getD 0 + w) else lookupQ m q := by
  induction m with
  | nil =>
    by_cases hq : q = p
    · subst hq
      simp [addScore, lookupQ, qadd_eq_add]
    · simp [addScore, lookupQ, hq, Ne.symm hq]
  | cons kv m ih =>
    rcases kv with ⟨k, v⟩
    by_cases hk : k = p
    · have hstep : addScore ((k, v) :: m) p w = (k, qadd v w) :: m := by
        simp [addScore, hk]
      by_cases hq : k = q
      · subst hq
        rw [hstep, lookupQ_cons, lookupQ_cons, if_pos rfl, if_pos rfl,
          if_pos hk]
        simp [qadd_eq_add]
      · rw [hstep, lookupQ_cons, lookupQ_cons, if_neg hq, if_neg hq,
          if_neg (fun h : q = p => hq (by rw [hk, ← h]))]
    · have hstep : addScore ((k, v) :: m) p w = (k, v) :: addScore m p w := by
        simp [addScore, hk]
      by_cases hq : k = q
      · subst hq
        rw [hstep, lookupQ_cons, lookupQ_cons, if_pos rfl, if_pos rfl,
          if_neg (fun h : k = p => hk h)]
      · rw [hstep, lookupQ_cons, lookupQ_cons, if_neg hq, if_neg hq, ih]

/-- Folding `addScore` over a path list adds `count · w` at the key. -/
theorem lookupQ_addScore_fold (ps : List PyStr) (w : ℚ)
    (m : List (PyStr × ℚ)) (q : PyStr) :
    lookupQ (ps.foldl (fun s p => addScore s p w) m) q =
      if q ∈ ps ∨ (lookupQ m q).isSome then
        some ((lookupQ m q).getD 0 + (ps.count q : ℚ) * w)
      else none := by
  induction ps generalizing m with
  | nil =>
    rcases h : lookupQ m q with _ | v <;> simp [h]
  | cons p ps ih =>
    rw [List.foldl_cons, ih (addScore m p w), lookupQ_addScore]
    by_cases hq : q = p
    · subst hq
      rcases h : lookupQ m q with _ | v <;>
        simp [h, List.count_cons, add_mul, add_assoc, add_comm, add_left_comm]
    · rcases h : lookupQ m q with _ | v <;>
        simp [h, hq, List.count_cons, Ne.symm hq]

/-- The score table after the whole keyword pass: present exactly at the
matched paths, holding the claimed base-score sum. -/
theorem lookupQ_scores_fold (lower : PyStr)
    (km : List (PyStr × List PyStr)) (m : List (PyStr × ℚ)) (q : PyStr) :
    lookupQ (km.foldl
      (fun scores kp =>
        if occursIn kp.1 lower then
          kp.2.foldl (fun s p => addScore s p (kwWeight lower kp.1)) scores
        else scores) m) q =
      if (∃ kp ∈ km, occursIn kp.1 lower = true ∧ q ∈ kp.2) ∨
          (lookupQ m q).isSome then
        some ((lookupQ m q).getD 0 +
          (km.map (fun kp =>
            if occursIn kp.1 lower then (kp.2.count q : ℚ) * kwWeight lower kp.1
            else 0)).sum)
      else none := by
  induction km generalizing m with
  | nil =>
    rcases h : lookupQ m q with _ | v <;> simp [h]
  | cons kp km ih =>
    rw [List.foldl_cons, List.map_cons, List.sum_cons]
    by_cases ho : occursIn kp.1 lower
    · rw [if_pos ho, ih, if_pos ho]
      by_cases hin : q ∈ kp.2
      · have hmem : ∃ x ∈ kp :: km, occursIn x.1 lower = true ∧ q ∈ x.2 :=
          ⟨kp, List.mem_cons_self _ _, ⟨ho, hin⟩⟩
        rw [lookupQ_addScore_fold]
        rcases h : lookupQ m q with _ | v <;>
          simp [h, hin, hmem, add_assoc, ho]
      · have hcond : (∃ x ∈ kp :: km, occursIn x.1 lower = true ∧ q ∈ x.2) ↔
            (∃ x ∈ km, occursIn x.1 lower = true ∧ q ∈ x.2) := by
          constructor
          · rintro ⟨x, hx1, hx2⟩
            rcases List.mem_cons.mp hx1 with rfl | hx1
            · exact absurd hx2.2 hin
            · exact ⟨x, hx1, hx2⟩
          · rintro ⟨x, hx1, hx2⟩
            exact ⟨x, List.mem_cons_of_mem _ hx1, hx2⟩
        rw [lookupQ_addScore_fold]
        have hz : (kp.2.count q : ℚ) = 0 := by
          simp [List.count_eq_zero_of_not_mem hin]
        rcases h : lookupQ m q with _ | v
        · simp only [h, hin, false_or, Option.isSome_none,
            Bool.false_eq_true, or_false, if_false, Option.getD_none, hz,
            zero_mul, zero_add]
          exact if_congr hcond.symm rfl rfl
        · simp [h, hin, hz]
    · rw [if_neg ho, ih, if_neg ho]
      have hcond : (∃ x ∈ kp :: km, occursIn x.1 lower = true ∧ q ∈ x.2) ↔
          (∃ x ∈ km, occursIn x.1 lower = true ∧ q ∈ x.2) := by
        constructor
        · rintro ⟨x, hx1, hx2⟩
          rcases List.mem_cons.mp hx1 with rfl | hx1
          · exact absurd hx2.1 ho
          · exact ⟨x, hx1, hx2⟩
        · rintro ⟨x, hx1, hx2⟩
          exact ⟨x, List.mem_cons_of_mem _ hx1, hx2⟩
      rcases h : lookupQ m q with _ | v
      · simp only [h, Option.isSome_none, Bool.false_eq_true, or_false,
          Option.getD_none, zero_add]
        exact if_congr hcond.symm rfl rfl
      · simp [h]

/-- The keyword pass itself (`path_scores`). -/
theorem lookupQ_path_scores (lower q : PyStr) :
    lookupQ (path_scores lower) q =
      if MatchedPath lower q then some (specBaseScore lower q) else none := by
  rw [path_scores, lookupQ_scores_fold]
  simp only [MatchedPath, specBaseScore, lookupQ, List.find?_nil,
    Option.map_none, Option.getD_none, zero_add]
  exact if_congr (by simp) (by simp) rfl

/-- `scaleKey` multiplies the value at `k` (no-op elsewhere or when absent). -/
theorem lookupQ_scaleKey (m : List (PyStr × ℚ)) (k : PyStr) (c : ℚ)
    (q : PyStr) :
    lookupQ (scaleKey m k c) q =
      if q = k then (lookupQ m q).map (· * c) else lookupQ m q := by
  have hp : ((fun kv : PyStr × ℚ => decide (kv.1 = q)) ∘
      (fun kv : PyStr × ℚ => if kv.1 = k then (kv.1, qmul kv.2 c) else kv)) =
      (fun kv : PyStr × ℚ => decide (kv.1 = q)) := by
    funext kv
    by_cases h : kv.1 = k <;> simp [h]
  rw [scaleKey, lookupQ, List.find?_map, hp]
  rcases hf : m.find? (fun kv => kv.1 = q) with _ | kv0
  · simp [lookupQ, hf]
  · have hkey : kv0.1 = q := by
      have := List.find?_some hf
      simpa using this
    simp only [lookupQ, hf, Option.map_some]
    by_cases hq : q = k
    · rw [if_pos hq]
      simp [hkey, hq, qmul_eq_mul]
    · rw [if_neg hq]
      have : kv0.1 ≠ k := fun h => hq (hkey ▸ h)
      simp [this]

/-- Folding `scaleKey` over the session types multiplies by
`c ^ (occurrences of the key)`. -/
theorem lookupQ_scaleKey_fold (ts : List PyStr) (c : ℚ)
    (m : List (PyStr × ℚ)) (q : PyStr) :
    lookupQ (ts.foldl (fun s t => scaleKey s t c) m) q =
      (lookupQ m q).map (· * c ^ ts.count q) := by
  induction ts generalizing m with
  | nil => rcases h : lookupQ m q with _ | v <;> simp [h]
  | cons t ts ih =>
    rw [List.foldl_cons, ih (scaleKey m t c), lookupQ_scaleKey]
    by_cases hq : q = t
    · subst hq
      rcases h : lookupQ m q with _ | v <;>
        simp [h, List.count_cons, pow_succ, mul_comm, mul_assoc, mul_left_comm]
    · rcases h : lookupQ m q with _ | v <;>
        simp [h, hq, List.count_cons, Ne.symm hq]

/-- The context boosts multiply each present path's score by `ctxMult`. -/
theorem lookupQ_boosts (m : List (PyStr × ℚ)) (ctx : ClassifyContext)
    (q : PyStr) :
    lookupQ (_apply_context_boosts m ctx) q =
      (lookupQ m q).map (· * ctxMult (some ctx) q) := by
  have h32 : Rat.divInt 3 2 = (3 : ℚ) / 2 := by
    rw [Rat.divInt_eq_div]; norm_num
  have h65 : Rat.divInt 6 5 = (6 : ℚ) / 5 := by
    rw [Rat.divInt_eq_div]; norm_num
  rw [_apply_context_boosts, ctxMult]
  rcases ctx with ⟨prev, sess⟩
  rcases prev with _ | p <;> rcases sess with _ | ts
  · simp
  · rw [lookupQ_scaleKey_fold]
    rcases h : lookupQ m q with _ | v
    · simp [h]
    · simp only [h, Option.map_some, Option.some.injEq]
      rw [h65]
      simp
  · rw [lookupQ_scaleKey]
    by_cases hq : q = p
    · subst hq
      rcases h : lookupQ m q with _ | v
      · simp [h]
      · simp only [if_pos rfl, h, Option.map_some, Option.some.injEq,
          Option.some.injEq, if_pos (rfl : q = q)]
        rw [h32]
        ring_nf
        simp
    · have hpq : ¬ p = q := fun hc => hq hc.symm
      rcases h : lookupQ m q with _ | v
      · simp [h, hq]
      · simp only [if_neg hq, h, Option.map_some, Option.some.injEq,
          if_neg hpq]
        simp
  · rw [lookupQ_scaleKey_fold, lookupQ_scaleKey]
    by_cases hq : q = p
    · subst hq
      rcases h : lookupQ m q with _ | v
      · simp [h]
      · simp only [if_pos rfl, h, Option.map_some, Option.some.injEq,
          if_pos (rfl : q = q)]
        rw [h32, h65]
        ring_nf
        simp [mul_comm, mul_assoc, mul_left_comm]
    · have hpq : ¬ p = q := fun hc => hq hc.symm
      rcases h : lookupQ m q with _ | v
      · simp [h, hq]
      · simp only [if_neg hq, h, Option.map_some, Option.some.injEq,
          if_neg hpq]
        rw [h65]
        ring_nf
        simp [mul_comm, mul_assoc, mul_left_comm]

/-- The ranked table of `classify`: present exactly at the matched paths,
holding the claimed final score. -/
theorem lookupQ_final_scores (content : PyStr)
    (context : Option ClassifyContext) (q : PyStr) :
    lookupQ (final_scores content context) q =
      if MatchedPath (pyLower content) q then
        some (specFinalScore (pyLower content) context q)
      else none := by
  rcases context with _ | ctx
  · rw [show final_scores content none = path_scores (pyLower content) from rfl,
      lookupQ_path_scores]
    rw [specFinalScore, ctxMult]
    by_cases h : MatchedPath (pyLower content) q <;> simp [h]
  · rw [show final_scores content (some ctx) =
        _apply_context_boosts (path_scores (pyLower content)) ctx from rfl,
      lookupQ_boosts, lookupQ_path_scores, specFinalScore]
    by_cases h : MatchedPath (pyLower content) q <;> simp [h]

/-- Keys of `addScore`: update in place, or append the new key. -/
theorem addScore_keys (m : List (PyStr × ℚ)) (p : PyStr) (w : ℚ) :
    (addScore m p w).map Prod.fst =
      if p ∈ m.map Prod.fst then m.map Prod.fst else m.map Prod.fst ++ [p] := by
  induction m with
  | nil => simp [addScore]
  | cons kv m ih =>
    rcases kv with ⟨k, v⟩
    by_cases hk : k = p
    · subst hk
      simp [addScore]
    · have hstep : addScore ((k, v) :: m) p w = (k, v) :: addScore m p w := by
        simp [addScore, hk]
      rw [hstep]
      by_cases hm : p ∈ m.map Prod.fst
      · simp [ih, hm, hk, Ne.symm hk]
      · simp [ih, hm, hk, Ne.symm hk]

/-- `addScore` keeps the key list duplicate-free. -/
theorem addScore_keys_nodup (m : List (PyStr × ℚ)) (p : PyStr) (w : ℚ)
    (hm : (m.map Prod.fst).Nodup) :
    ((addScore m p w).map Prod.fst).Nodup := by
  rw [addScore_keys]
  by_cases hp : p ∈ m.map Prod.fst
  · simpa [hp] using hm
  · simp only [hp, if_false]
    exact List.Nodup.append hm (List.nodup_singleton p)
      (fun a ha hb => hp ((List.mem_singleton.mp hb) ▸ ha))

/-- The inner fold keeps the key list duplicate-free. -/
theorem addScore_fold_keys_nodup (ps : List PyStr) (w : ℚ)
    (m : List (PyStr × ℚ)) (hm : (m.map Prod.fst).Nodup) :
    (((ps.foldl (fun s p => addScore s p w) m)).map Prod.fst).Nodup := by
  induction ps generalizing m with
  | nil => exact hm
  | cons p ps ih =>
    rw [List.foldl_cons]
    exact ih _ (addScore_keys_nodup m p w hm)

/-- The whole keyword pass keeps the key list duplicate-free. -/
theorem path_scores_keys_nodup (lower : PyStr) :
    ((path_scores lower).map Prod.fst).Nodup := by
  rw [path_scores]
  generalize hkm : keyword_map = km
  have : (([] : List (PyStr × ℚ)).map Prod.fst).Nodup := by simp
  clear hkm
  generalize hm : ([] : List (PyStr × ℚ)) = m at this ⊢
  clear hm
  induction km generalizing m with
  | nil => exact this
  | cons kp km ih =>
    rw [List.foldl_cons]
    by_cases ho : occursIn kp.1 lower
    · rw [if_pos ho]
      exact ih _ (addScore_fold_keys_nodup kp.2 _ m this)
    · rw [if_neg ho]
      exact ih _ this

/-- `scaleKey` does not change the key list. -/
theorem scaleKey_keys (m : List (PyStr × ℚ)) (k : PyStr) (c : ℚ) :
    (scaleKey m k c).map Prod.fst = m.map Prod.fst := by
  induction m with
  | nil => rfl
  | cons kv m ih =>
    rcases kv with ⟨k1, v⟩
    by_cases h : k1 = k <;> simp [scaleKey, h] <;>
      simpa [scaleKey] using ih

/-- A `scaleKey` fold does not change the key list's nodup property. -/
theorem scaleKey_fold_keys_nodup (ts : List PyStr) (c : ℚ) :
    ∀ (m : List (PyStr × ℚ)), (m.map Prod.fst).Nodup →
      ((ts.foldl (fun s t => scaleKey s t c) m).map Prod.fst).Nodup := by
  induction ts with
  | nil => exact fun m hm => hm
  | cons t ts ih =>
    intro m hm
    rw [List.foldl_cons]
    exact ih _ (by rw [scaleKey_keys]; exact hm)

/-- The final (boosted) table keeps the key list duplicate-free. -/
theorem final_scores_keys_nodup (content : PyStr)
    (context : Option ClassifyContext) :
    ((final_scores content context).map Prod.fst).Nodup := by
  rcases context with _ | ⟨prev, sess⟩
  · exact path_scores_keys_nodup _
  · rw [show final_scores content (some ⟨prev, sess⟩) =
        _apply_context_boosts (path_scores (pyLower content)) ⟨prev, sess⟩
        from rfl, _apply_context_boosts]
    rcases prev with _ | p <;> rcases sess with _ | ts
    · exact path_scores_keys_nodup _
    · exact scaleKey_fold_keys_nodup ts _ _ (path_scores_keys_nodup _)
    · rw [scaleKey_keys]
      exact path_scores_keys_nodup _
    · exact scaleKey_fold_keys_nodup ts _ _
        (by rw [scaleKey_keys]; exact path_scores_keys_nodup _)

/-- In a table with duplicate-free keys, every entry is what lookup finds. -/
theorem lookupQ_of_mem (m : List (PyStr × ℚ)) (hm : (m.map Prod.fst).Nodup)
    (e : PyStr × ℚ) (he : e ∈ m) : lookupQ m e.1 = some e.2 := by
  induction m with
  | nil => cases he
  | cons kv m ih =>
    rcases List.mem_cons.mp he with rfl | he
    · rw [lookupQ_cons, if_pos rfl]
    · have hk : kv.1 ≠ e.1 := by
        intro hc
        have : e.1 ∈ m.map Prod.fst := List.mem_map_of_mem Prod.fst he
        rw [List.map_cons, List.nodup_cons] at hm
        exact hm.1 (hc ▸ this)
      rw [lookupQ_cons, if_neg hk]
      exact ih (by rw [List.map_cons, List.nodup_cons] at hm; exact hm.2) he

/-- A successful lookup exposes a matching entry. -/
theorem mem_of_lookupQ (m : List (PyStr × ℚ)) (q : PyStr) (v : ℚ)
    (h : lookupQ m q = some v) : ∃ e ∈ m, e.1 = q ∧ e.2 = v := by
  rw [lookupQ] at h
  rcases hf : m.find? (fun kv => kv.1 = q) with _ | e
  · rw [hf] at h
    cases h
  · rw [hf] at h
    refine ⟨e, List.mem_of_find?_eq_some hf, ?_, by simpa using h⟩
    have := List.find?_some hf
    simpa using this

/-- The argmax is one of the entries. -/
theorem maxEntry_mem (h : PyStr × ℚ) (l : List (PyStr × ℚ)) :
    maxEntry h l ∈ h :: l := by
  induction l generalizing h with
  | nil => simp [maxEntry]
  | cons e l ih =>
    rw [maxEntry]
    by_cases hc : h.2 < e.2
    · rw [if_pos hc]
      rcases List.mem_cons.mp (ih e) with he | he
      · rw [he]
        simp
      · exact List.mem_cons_of_mem _ (List.mem_cons_of_mem _ he)
    · rw [if_neg hc]
      rcases List.mem_cons.mp (ih h) with he | he
      · rw [he]
        simp
      · exact List.mem_cons_of_mem _ (List.mem_cons_of_mem _ he)

/-- The argmax dominates every entry. -/
theorem maxEntry_ge (h : PyStr × ℚ) (l : List (PyStr × ℚ)) :
    ∀ e ∈ h :: l, e.2 ≤ (maxEntry h l).2 := by
  induction l generalizing h with
  | nil =>
    intro e he
    rcases List.mem_cons.mp he with rfl | he
    · simp [maxEntry]
    · cases he
  | cons e2 l ih =>
    intro e he
    rw [maxEntry]
    by_cases hc : h.2 < e2.2
    · rw [if_pos hc]
      rcases List.mem_cons.mp he with rfl | he
      · exact le_trans hc.le (ih e2 _ (List.mem_cons_self _ _))
      · exact ih e2 _ he
    · rw [if_neg hc]
      rcases List.mem_cons.mp he with rfl | he
      · exact ih e _ (List.mem_cons_self _ _)
      · rcases List.mem_cons.mp he with rfl | he
        · exact le_trans (not_lt.mp hc) (ih h _ (List.mem_cons_self _ _))
        · exact ih h _ (List.mem_cons_of_mem _ he)

/-- Keyword weights are nonnegative. -/
theorem kwWeight_nonneg (lower kw : PyStr) : 0 ≤ kwWeight lower kw := by
  rw [kwWeight]
  split <;> rw [qdiv_eq_div] <;> try rw [qmul_eq_mul]
  · positivity
  · positivity

/-- The claimed base score is nonnegative. -/
theorem specBaseScore_nonneg (lower p : PyStr) : 0 ≤ specBaseScore lower p := by
  rw [specBaseScore]
  refine List.sum_nonneg ?_
  intro x hx
  rcases List.mem_map.mp hx with ⟨kp, _, rfl⟩
  split
  · exact mul_nonneg (Nat.cast_nonneg _) (kwWeight_nonneg lower kp.1)
  · exact le_refl 0

/-- The context multiplier is nonnegative. -/
theorem ctxMult_nonneg (context : Option ClassifyContext) (p : PyStr) :
    0 ≤ ctxMult context p := by
  rw [ctxMult.eq_def]
  rcases context with _ | ctx
  · norm_num
  · refine mul_nonneg ?_ (pow_nonneg (by norm_num) _)
    split <;> norm_num

/-- The claimed final score is nonnegative. -/
theorem specFinalScore_nonneg (lower : PyStr)
    (context : Option ClassifyContext) (p : PyStr) :
    0 ≤ specFinalScore lower context p :=
  mul_nonneg (specBaseScore_nonneg lower p) (ctxMult_nonneg context p)

/-- `allTreePaths` contains exactly the paths owned by some keyword. -/
theorem mem_allTreePaths_iff (q : PyStr) :
    q ∈ allTreePaths ↔ ∃ kp ∈ keyword_map, q ∈ kp.2 := by
  rw [allTreePaths]
  generalize keyword_map = km
  induction km with
  | nil => simp
  | cons kp km ih => simp [List.foldr_cons, ih]

/-- Every keyword of the tree owns at least one path. -/
theorem keyword_map_vals_ne_nil : ∀ kp ∈ keyword_map, kp.2 ≠ [] := by decide

/-- Every enumerated path splits into exactly three segments that reassemble
to the path itself. -/
theorem splitSlash_allTreePaths :
    ∀ p ∈ allTreePaths, mkPath3 (splitSlash p) = some p := by decide

/-- Core of claims C3 and C8 on the scored branch: when some keyword occurs
in the lower-cased content, `classify` returns a matched path whose claimed
final score is maximal, with confidence `min(score/3, 1)`. -/
theorem classify_scored_spec (content : PyStr)
    (context : Option ClassifyContext)
    (hmatch : ∃ kp ∈ keyword_map, occursIn kp.1 (pyLower content) = true) :
    MatchedPath (pyLower content) (classify content context).to_path ∧
    (classify content context).confidence =
      min (specFinalScore (pyLower content) context
        ((classify content context).to_path) / 3) 1 ∧
    ∀ p, MatchedPath (pyLower content) p →
      specFinalScore (pyLower content) context p ≤
        specFinalScore (pyLower content) context
          ((classify content context).to_path) := by
  obtain ⟨kp, hkp, hocc⟩ := hmatch
  obtain ⟨p0, hp0⟩ : ∃ p0, p0 ∈ kp.2 :=
    List.exists_mem_of_ne_nil _ (keyword_map_vals_ne_nil kp hkp)
  have hm0 : MatchedPath (pyLower content) p0 := ⟨kp, hkp, hocc, hp0⟩
  have hlook0 : lookupQ (final_scores content context) p0 =
      some (specFinalScore (pyLower content) context p0) := by
    rw [lookupQ_final_scores, if_pos hm0]
  rcases hfs : final_scores content context with _ | ⟨b, l⟩
  · rw [hfs] at hlook0
    simp [lookupQ] at hlook0
  have hnodup := final_scores_keys_nodup content context
  rw [hfs] at hnodup
  have hbestmem : maxEntry b l ∈ b :: l := maxEntry_mem b l
  have hbestlook : lookupQ (final_scores content context) (maxEntry b l).1 =
      some (maxEntry b l).2 := by
    rw [hfs]
    exact lookupQ_of_mem _ hnodup _ hbestmem
  have hbestmatched : MatchedPath (pyLower content) (maxEntry b l).1 := by
    by_cases hmm : MatchedPath (pyLower content) (maxEntry b l).1
    · exact hmm
    · rw [lookupQ_final_scores, if_neg hmm] at hbestlook
      cases hbestlook
  have hbestval : (maxEntry b l).2 =
      specFinalScore (pyLower content) context (maxEntry b l).1 := by
    have h2 := (lookupQ_final_scores content context (maxEntry b l).1).symm.trans
      hbestlook
    rw [if_pos hbestmatched] at h2
    exact (Option.some.inj h2).symm
  have hmk : mkPath3 (splitSlash (maxEntry b l).1) = some (maxEntry b l).1 := by
    refine splitSlash_allTreePaths _ ((mem_allTreePaths_iff _).mpr ?_)
    obtain ⟨kp1, hkp1, _, hin1⟩ := hbestmatched
    exact ⟨kp1, hkp1, hin1⟩
  rcases hss : splitSlash (maxEntry b l).1 with _ | ⟨x1, xs⟩
  · rw [hss] at hmk
    cases hmk
  rcases xs with _ | ⟨x2, xs⟩
  · rw [hss] at hmk
    cases hmk
  rcases xs with _ | ⟨x3, xs⟩
  · rw [hss] at hmk
    cases hmk
  rcases xs with _ | ⟨x4, xs⟩
  · -- splitSlash gave [x1, x2, x3]
    have hcl : classify content context =
        ⟨x1, x2, x3, pyMin (qdiv (maxEntry b l).2 3) 1⟩ := by
      rw [classify, hfs]
      dsimp only
      rw [hss]
    have hpath : (classify content context).to_path = (maxEntry b l).1 := by
      rw [hcl]
      rw [hss] at hmk
      exact Option.some.inj (by simpa [mkPath3, MemoryClassification.to_path,
        mkPath] using hmk)
    refine ⟨hpath ▸ hbestmatched, ?_, ?_⟩
    · rw [hpath, hcl, ← hbestval, pyMin_eq_min, qdiv_eq_div]
    · intro p hp
      have hlookp : lookupQ (final_scores content context) p =
          some (specFinalScore (pyLower content) context p) := by
        rw [lookupQ_final_scores, if_pos hp]
      obtain ⟨e, hemem, hekey, heval⟩ := mem_of_lookupQ _ _ _ hlookp
      rw [hfs] at hemem
      have := maxEntry_ge b l e hemem
      rw [heval, hpath, ← hbestval] at *
      exact heval ▸ (hekey ▸ this)
  · rw [hss] at hmk
    cases hmk

/-- When no keyword occurs, the score table is empty. -/
theorem final_scores_eq_nil (content : PyStr) (context : Option ClassifyContext)
    (hno : ∀ kp ∈ keyword_map, occursIn kp.1 (pyLower content) = false) :
    final_scores content context = [] := by
  rcases hfs : final_scores content context with _ | ⟨e, l⟩
  · rfl
  · exfalso
    have hnodup := final_scores_keys_nodup content context
    rw [hfs] at hnodup
    have hlook : lookupQ (final_scores content context) e.1 = some e.2 := by
      rw [hfs]
      exact lookupQ_of_mem _ hnodup _ (List.mem_cons_self _ _)
    rw [lookupQ_final_scores] at hlook
    by_cases hmm : MatchedPath (pyLower content) e.1
    · obtain ⟨kp, hkp, hocc, _⟩ := hmm
      rw [hno kp hkp] at hocc
      cases hocc
    · rw [if_neg hmm] at hlook
      cases hlook

/-- Core of claim C8: the returned path is an enumerated tree path, the
confidence lies in `[0, 1]`, and with no keyword match the fallback policy
applies verbatim. -/
theorem classify_range_spec (content : PyStr) (context : Option ClassifyContext) :
    (classify content context).to_path ∈ allTreePaths ∧
    0 ≤ (classify content context).confidence ∧
    (classify content context).confidence ≤ 1 ∧
    ((∀ kp ∈ keyword_map, occursIn kp.1 (pyLower content) = false) →
      classify content context =
        if occursIn (pys "?") content then
          ⟨pys "temporal", pys "conversation", pys "question", 4 / 5⟩
        else if (pySplit content).length < 10 then
          ⟨pys "temporal", pys "conversation", pys "statement", 1 / 2⟩
        else ⟨pys "knowledge", pys "fact", pys "general", 3 / 10⟩) := by
  by_cases hmatch : ∃ kp ∈ keyword_map, occursIn kp.1 (pyLower content) = true
  · obtain ⟨hm, hconf, _⟩ := classify_scored_spec content context hmatch
    refine ⟨?_, ?_, ?_, ?_⟩
    · rw [mem_allTreePaths_iff]
      obtain ⟨kp, hkp, _, hin⟩ := hm
      exact ⟨kp, hkp, hin⟩
    · rw [hconf]
      exact le_min (div_nonneg (specFinalScore_nonneg _ _ _) (by norm_num))
        zero_le_one
    · rw [hconf]
      exact min_le_right _ _
    · intro hno
      exfalso
      obtain ⟨kp, hkp, hocc⟩ := hmatch
      rw [hno kp hkp] at hocc
      cases hocc
  · have hno : ∀ kp ∈ keyword_map, occursIn kp.1 (pyLower content) = false := by
      intro kp hkp
      by_contra hc
      exact hmatch ⟨kp, hkp, by simpa using hc⟩
    have hnil := final_scores_eq_nil content context hno
    have h45 : Rat.divInt 4 5 = (4 : ℚ) / 5 := by
      rw [Rat.divInt_eq_div]; norm_num
    have h12 : Rat.divInt 1 2 = (1 : ℚ) / 2 := by
      rw [Rat.divInt_eq_div]; norm_num
    have h310 : Rat.divInt 3 10 = (3 : ℚ) / 10 := by
      rw [Rat.divInt_eq_div]; norm_num
    have hcl : classify content context =
        if occursIn (pys "?") content then
          ⟨pys "temporal", pys "conversation", pys "question", 4 / 5⟩
        else if (pySplit content).length < 10 then
          ⟨pys "temporal", pys "conversation", pys "statement", 1 / 2⟩
        else ⟨pys "knowledge", pys "fact", pys "general", 3 / 10⟩ := by
      rw [classify, hnil, h45, h12, h310]
    refine ⟨?_, ?_, ?_, fun _ => hcl⟩
    · rw [hcl]
      split_ifs <;> decide
    · rw [hcl]
      split_ifs <;> norm_num
    · rw [hcl]
      split_ifs <;> norm_num

/-- **C3**.  For every utterance in which at least one trigger keyword occurs
as a case-folded substring, `classify` returns a path owned by some matching
keyword whose claimed final score — `len(keyword)/10` per matching owning
keyword, doubled when the lower-cased utterance starts with the keyword, then
×1.5 for the previous classification's path and ×1.2 per session active-type
occurrence — is maximal among all matched paths, with confidence
`min(score/3, 1)`. -/
theorem c3_keyword_scoring (content : PyStr) (context : Option ClassifyContext)
    (hmatch : ∃ kp ∈ keyword_map, occursIn kp.1 (pyLower content) = true) :
    MatchedPath (pyLower content) (classify content context).to_path ∧
    (classify content context).confidence =
      min (specFinalScore (pyLower content) context
        ((classify content context).to_path) / 3) 1 ∧
    ∀ p, MatchedPath (pyLower content) p →
      specFinalScore (pyLower content) context p ≤
        specFinalScore (pyLower content) context
          ((classify content context).to_path) :=
  classify_scored_spec content context hmatch

/-- **C3** (witness): the theorem applied to the utterance `"name"` with no
context — the keyword `name` matches. -/
theorem c3_keyword_scoring_witness :
    (∃ kp ∈ keyword_map, occursIn kp.1 (pyLower (pys "name")) = true) ∧
    (MatchedPath (pyLower (pys "name")) (classify (pys "name") none).to_path ∧
      (classify (pys "name") none).confidence =
        min (specFinalScore (pyLower (pys "name")) none
          ((classify (pys "name") none).to_path) / 3) 1 ∧
      ∀ p, MatchedPath (pyLower (pys "name")) p →
        specFinalScore (pyLower (pys "name")) none p ≤
          specFinalScore (pyLower (pys "name")) none
            ((classify (pys "name") none).to_path)) :=
  ⟨by decide, c3_keyword_scoring (pys "name") none (by decide)⟩

/-- **C8**.  Every classification lands on an enumerated hierarchical path
with confidence in `[0, 1]`; when no keyword matches, the fallback policy
returns `temporal/conversation/question` (0.8) for utterances containing
`?`, `temporal/conversation/statement` (0.5) for fewer than ten words, and
`knowledge/fact/general` (0.3) otherwise.  (All three fallbacks are
themselves enumerated paths.) -/
theorem c8_classify_range (content : PyStr) (context : Option ClassifyContext) :
    (classify content context).to_path ∈ allTreePaths ∧
    0 ≤ (classify content context).confidence ∧
    (classify content context).confidence ≤ 1 ∧
    ((∀ kp ∈ keyword_map, occursIn kp.1 (pyLower content) = false) →
      classify content context =
        if occursIn (pys "?") content then
          ⟨pys "temporal", pys "conversation", pys "question", 4 / 5⟩
        else if (pySplit content).length < 10 then
          ⟨pys "temporal", pys "conversation", pys "statement", 1 / 2⟩
        else ⟨pys "knowledge", pys "fact", pys "general", 3 / 10⟩) :=
  classify_range_spec content context

/-! ### Table provisioning (claim C1) -/

/-- `setTable` followed by a lookup of the same key yields the new info. -/
theorem lookupTable_setTable (m : List (PyStr × TableInfo)) (e : List PyStr)
    (t : PyStr) (info : TableInfo) :
    lookupTable ⟨setTable m t info, e⟩ t = some info := by
  induction m with
  | nil =>
    rw [lookupTable, setTable, List.find?_cons_of_pos _ (by simp)]
    rfl
  | cons kv m ih =>
    by_cases h : kv.1 = t
    · rw [lookupTable, setTable, if_pos h,
        List.find?_cons_of_pos _ (by simp [h])]
      rfl
    · rw [lookupTable, setTable, if_neg h,
        List.find?_cons_of_neg _ (by simp [h])]
      exact ih

/-- Filtering a name out of the embedding-index list removes it entirely
(`DROP TABLE ... CASCADE` drops every index of the table). -/
theorem contains_filter_ne (l : List PyStr) (t : PyStr) :
    (l.filter (fun x => x ≠ t)).contains t = false := by
  induction l with
  | nil => rfl
  | cons x l ih =>
    by_cases h : x = t
    · simp [List.filter_cons, h, ih]
    · simp [List.filter_cons, h, List.contains_cons, ih, Ne.symm h]

/-- On a freshly created (empty, unindexed) table the optimizer reads zero
rows, `_determine_index_strategy` picks the `none` strategy, and since no
embedding index exists either, `_apply_index_strategy` issues no statements:
`optimize_memory_index` reports success having created nothing. -/
theorem optimize_on_fresh (st : DBState) (t : PyStr) (d : ℕ)
    (hlook : lookupTable st t = some ⟨d, []⟩)
    (hemb : st.embIndexed.contains t = false) :
    optimize_memory_index_force st t = (st, true, []) := by
  rw [optimize_memory_index_force, _get_table_stats, hlook]
  simp only [Option.map_some']
  rw [hemb]
  rfl

/-- The recreate path with a column dict: the resulting state is exactly the
drop-and-create state and the statement trace is `recreateTrace` (the
optimizer contributes nothing, and the IVFFlat fallback branch is not taken
because the optimizer reports success). -/
theorem recreate_table_plan (st : DBState) (t : PyStr) (d : ℕ)
    (cols : List (PyStr × PyStr)) :
    recreate_table st t d (some cols) =
      (recreatedState st t d, true, recreateTrace t d cols) := by
  have hlook : lookupTable (recreatedState st t d) t = some ⟨d, []⟩ :=
    lookupTable_setTable _ _ _ _
  have hemb : (recreatedState st t d).embIndexed.contains t = false :=
    contains_filter_ne _ _
  cases hany : cols.any (fun kv => kv.1 = pys "user_id") with
  | true =>
    have hopt := optimize_on_fresh
      (dbRun (dbRun st [DbAction.dropTable t, DbAction.createTable t d])
        [DbAction.createMetadataGin t, DbAction.createCreatedAtBtree t,
         DbAction.createUserIdBtree t]) t d hlook hemb
    simp only [recreate_table, hany, eq_self_iff_true, if_true,
      List.cons_append, List.nil_append, List.append_nil]
    rw [hopt]
    simp only [recreatedState, recreateTrace, hany, eq_self_iff_true, if_true,
      List.cons_append, List.nil_append, List.append_nil]
    rfl
  | false =>
    have hopt := optimize_on_fresh
      (dbRun (dbRun st [DbAction.dropTable t, DbAction.createTable t d])
        [DbAction.createMetadataGin t, DbAction.createCreatedAtBtree t]) t d
      hlook hemb
    simp only [recreate_table, hany, Bool.false_eq_true, if_false,
      List.cons_append, List.nil_append, List.append_nil]
    rw [hopt]
    simp only [recreatedState, recreateTrace, hany, Bool.false_eq_true,
      if_false, List.cons_append, List.nil_append, List.append_nil]
    rfl

/-- No statement in a recreate trace creates an index on the embedding
column. -/
theorem recreateTrace_no_vector (t : PyStr) (d : ℕ)
    (cols : List (PyStr × PyStr)) :
    (recreateTrace t d cols).all (fun a => !a.isVectorIndexCreate) = true := by
  cases hany : cols.any (fun kv => kv.1 = pys "user_id") with
  | true =>
    simp only [recreateTrace, hany, eq_self_iff_true, if_true]
    rfl
  | false =>
    simp only [recreateTrace, hany, Bool.false_eq_true, if_false]
    rfl

/-- C1, counterexample: a table declared with dimension 512, two stored rows
and an existing embedding index, re-provisioned for dimension 1024 with a
`user_id` column.  The table is dropped and re-created and the GIN,
`created_at` and `user_id` indexes are built — but the trace then ends:
no vector index is ever created (the optimizer sees the now-empty table and
picks no index), contradicting the claim that the non-vector indexes come
*before the vector index*; the final state's embedding-index list is empty. -/
theorem c1_no_vector_index_counterexample :
    ensure_table_with_dimension
        ⟨[(pys "memories", ⟨512, [⟨1⟩, ⟨1⟩]⟩)], [pys "memories"]⟩
        (pys "memories") 1024 (some [(pys "user_id", pys "TEXT")]) =
      (⟨[(pys "memories", ⟨1024, []⟩)], []⟩, true,
       [DbAction.dropTable (pys "memories"),
        DbAction.createTable (pys "memories") 1024,
        DbAction.createMetadataGin (pys "memories"),
        DbAction.createCreatedAtBtree (pys "memories"),
        DbAction.createUserIdBtree (pys "memories")]) ∧
    (List.all
        [DbAction.dropTable (pys "memories"),
         DbAction.createTable (pys "memories") 1024,
         DbAction.createMetadataGin (pys "memories"),
         DbAction.createCreatedAtBtree (pys "memories"),
         DbAction.createUserIdBtree (pys "memories")]
        (fun a => !a.isVectorIndexCreate)) = true := by
  constructor
  · rfl
  · rfl

/-- C1 (amended): `ensure_table_with_dimension` leaves the table untouched
when it exists with the required dimension; when the table is missing or its
dimension differs, it drops and re-creates the table (discarding all rows),
creates the GIN and `created_at` B-tree indexes and the `user_id` B-tree
when that column is declared, and creates *no* vector index at all (the
optimizer runs on the empty table and chooses no strategy); an immediate
retrieval returns the empty row set without error.  When
`additional_columns` is `None`, the `TypeError` raised by membership testing
makes the call report failure right after the drop-and-create, with no
indexes at all. -/
theorem c1_ensure_table (st : DBState) (t : PyStr) (d : ℕ)
    (cols : List (PyStr × PyStr)) :
    (∀ info, lookupTable st t = some info → info.dim = d →
        ensure_table_with_dimension st t d (some cols) = (st, true, [])) ∧
    (Option.all (fun info => info.dim != d) (lookupTable st t) = true →
        ensure_table_with_dimension st t d (some cols) =
            (recreatedState st t d, true, recreateTrace t d cols) ∧
          lookupTable (recreatedState st t d) t = some ⟨d, []⟩ ∧
          retrieve_rows (recreatedState st t d) t = Except.ok [] ∧
          (recreateTrace t d cols).all
            (fun a => !a.isVectorIndexCreate) = true) ∧
    recreate_table st t d none =
      (recreatedState st t d, false,
        [DbAction.dropTable t, DbAction.createTable t d]) := by
  refine ⟨?_, ?_, ?_⟩
  · intro info hinfo hdim
    rw [ensure_table_with_dimension, hinfo]
    dsimp only
    rw [if_neg (by simp [hdim])]
  · intro hmis
    have hlook : lookupTable (recreatedState st t d) t = some ⟨d, []⟩ :=
      lookupTable_setTable _ _ _ _
    refine ⟨?_, hlook, ?_, recreateTrace_no_vector t d cols⟩
    · rw [ensure_table_with_dimension]
      cases hlk : lookupTable st t with
      | none =>
        dsimp only
        exact recreate_table_plan st t d cols
      | some info =>
        rw [hlk] at hmis
        simp only [Option.all_some, bne_iff_ne] at hmis
        dsimp only
        rw [if_pos hmis]
        exact recreate_table_plan st t d cols
    · rw [retrieve_rows, hlook]
  · rfl

/-- Witness for C1 at a concrete database: a matching dimension is left
untouched, a mismatching one is re-created with the full trace, empty
retrieval and no vector index. -/
theorem c1_ensure_table_witness :
    ensure_table_with_dimension
        ⟨[(pys "mem", ⟨512, [⟨7⟩]⟩)], []⟩ (pys "mem") 512
        (some [(pys "content", pys "TEXT")]) =
      (⟨[(pys "mem", ⟨512, [⟨7⟩]⟩)], []⟩, true, []) ∧
    ensure_table_with_dimension
        ⟨[(pys "mem", ⟨512, [⟨7⟩]⟩)], []⟩ (pys "mem") 768
        (some [(pys "content", pys "TEXT")]) =
      (recreatedState ⟨[(pys "mem", ⟨512, [⟨7⟩]⟩)], []⟩ (pys "mem") 768, true,
        recreateTrace (pys "mem") 768 [(pys "content", pys "TEXT")]) ∧
    retrieve_rows
        (recreatedState ⟨[(pys "mem", ⟨512, [⟨7⟩]⟩)], []⟩ (pys "mem") 768)
        (pys "mem") = Except.ok [] ∧
    (recreateTrace (pys "mem") 768 [(pys "content", pys "TEXT")]).all
      (fun a => !a.isVectorIndexCreate) = true :=
  ⟨(c1_ensure_table ⟨[(pys "mem", ⟨512, [⟨7⟩]⟩)], []⟩ (pys "mem") 512
      [(pys "content", pys "TEXT")]).1 ⟨512, [⟨7⟩]⟩ rfl rfl,
   ((c1_ensure_table ⟨[(pys "mem", ⟨512, [⟨7⟩]⟩)], []⟩ (pys "mem") 768
      [(pys "content", pys "TEXT")]).2.1 (by decide)).1,
   ((c1_ensure_table ⟨[(pys "mem", ⟨512, [⟨7⟩]⟩)], []⟩ (pys "mem") 768
      [(pys "content", pys "TEXT")]).2.1 (by decide)).2.2.1,
   ((c1_ensure_table ⟨[(pys "mem", ⟨512, [⟨7⟩]⟩)], []⟩ (pys "mem") 768
      [(pys "content", pys "TEXT")]).2.1 (by decide)).2.2.2⟩

/-- **C8** (witness): at the keyword-free utterance `"zz"` the fallback
produces `temporal/conversation/statement` with confidence `1/2`. -/
theorem c8_classify_range_witness :
    (∀ kp ∈ keyword_map, occursIn kp.1 (pyLower (pys "zz")) = false) ∧
    classify (pys "zz") none =
      ⟨pys "temporal", pys "conversation", pys "statement", 1 / 2⟩ := by
  refine ⟨by decide, ?_⟩
  have h := (c8_classify_range (pys "zz") none).2.2.2 (by decide)
  rw [h, if_neg (by decide), if_pos (by decide)]

end MemoryAgent
